/-
  Verification development for the entity-resolution-and-merge engine of
  sqlalchemy-api-handler (src/sqlalchemy_api_handler/bases/modify.py).

  The Python code is shallowly embedded: SQLAlchemy model classes become the
  `Model` schema descriptor, instances become `Rec` (an attribute map), the
  ambient session becomes `Session` (a record store plus sequence counters),
  and the recursive merge pipeline (`modify`, `instance_from`,
  `create_or_modify`, `find`, ...) becomes a fuel-indexed mutual recursion.
  External collaborators that are not part of the repository sources
  (identifier humanization, datetime deserialization, uuid validation, the
  soft-delete check, `nesting_datum_from`) are modelled from the spec, each
  marked as such in its doc comment.
-/
import Mathlib

set_option linter.unusedVariables false

/-! ## Values, records, datums -/

/-- A date-time value (year, month, day, hour, minute, second). -/
structure DT where
  year : Nat
  month : Nat
  day : Nat
  hour : Nat
  minute : Nat
  second : Nat
deriving DecidableEq

/-- An exact decimal number: the value `num / 10 ^ scale`, as Python's
`decimal.Decimal` carries it (the scale is preserved, equality is
numeric). -/
structure Dec where
  num : Int
  scale : Nat
deriving DecidableEq

/-- An untyped Python-ish value as it occurs in datums and record attributes:
scalars, `None`, a materialized record instance (model name plus attribute
map), a nested dict, or a list. A Python `Decimal` is an exact signed
mantissa at a power-of-ten scale (`Dec`); its special values NaN and signed
infinity are separate constructors so that `Decimal(str)` parsing can be
modelled faithfully. -/
inductive Val : Type where
  | vstr : String → Val
  | vint : Int → Val
  | vdec : Dec → Val
  | vnan : Val
  | vinf : Bool → Val
  | vbool : Bool → Val
  | vdt : DT → Val
  | vnone : Val
  | vinst : String → List (String × Val) → Val
  | vdict : List (String × Val) → Val
  | vlist : List Val → Val

/-- A record instance: its model (class) name and its attribute map. -/
structure Rec where
  model : String
  fields : List (String × Val)

/-- A datum: a mapping from field name to value, as an association list. -/
abbrev Datum := List (String × Val)

def recToVal (r : Rec) : Val := Val.vinst r.model r.fields

/-- Python dict update semantics on an association list: replace the first
binding of the key in place, or append a new binding at the end. -/
def setPairs : List (String × Val) → String → Val → List (String × Val)
  | [], k, v => [(k, v)]
  | (k0, v0) :: rest, k, v =>
      if k0 == k then (k0, v) :: rest else (k0, v0) :: setPairs rest k v

/-- Python `del d[k]`: drop the first binding of the key. -/
def delKey : List (String × Val) → String → List (String × Val)
  | [], _ => []
  | (k0, v0) :: rest, k => if k0 == k then rest else (k0, v0) :: delKey rest k

/-- Attribute read with Python/SQLAlchemy default: an unset column attribute
reads as `None`. -/
def getFieldD (r : Rec) (k : String) : Val := (r.fields.lookup k).getD Val.vnone

def datumGetD (d : Datum) (k : String) : Val := (d.lookup k).getD Val.vnone

def datumHasKey (d : Datum) (k : String) : Bool := (d.map Prod.fst).contains k

/-- Python truthiness of an embedded value. -/
def valTruthy : Val → Bool
  | .vstr s => !(s == "")
  | .vint n => !(n == 0)
  | .vdec d => !(d.num == 0)
  | .vnan => true
  | .vinf _ => true
  | .vbool b => b
  | .vdt _ => true
  | .vnone => false
  | .vinst _ _ => true
  | .vdict l => !l.isEmpty
  | .vlist l => !l.isEmpty

/-- SQL-level equality used when matching a filter value against a stored
column value: scalar values compare by value (integers and decimals compare
numerically across the two representations, `NaN` compares unequal to
everything as in SQL), and non-scalar values never match a column. -/
def valBeq : Val → Val → Bool
  | .vstr a, .vstr b => a == b
  | .vint a, .vint b => a == b
  | .vint a, .vdec b => a * (10 : Int) ^ b.scale == b.num
  | .vdec a, .vint b => a.num == b * (10 : Int) ^ a.scale
  | .vdec a, .vdec b => a.num * (10 : Int) ^ b.scale == b.num * (10 : Int) ^ a.scale
  | .vbool a, .vbool b => a == b
  | .vdt a, .vdt b => a == b
  | .vinf a, .vinf b => a == b
  | .vnone, .vnone => true
  | _, _ => false

/-- Python `==` against the string sentinels. -/
def pyEqStr (v : Val) (s : String) : Bool :=
  match v with
  | .vstr a => a == s
  | _ => false

/-! ## Character-level string helpers (kernel-evaluable) -/

def isWSCh (c : Char) : Bool := c == ' ' || c == '\t' || c == '\n' || c == '\r'

/-- Leading and trailing whitespace removal on the character list. -/
def trimChars (l : List Char) : List Char :=
  ((l.dropWhile isWSCh).reverse.dropWhile isWSCh).reverse

def isDigitCh (c : Char) : Bool := decide ('0' ≤ c) && decide (c ≤ '9')

def natOfDigits (l : List Char) : Nat :=
  l.foldl (fun acc c => acc * 10 + (c.toNat - 48)) 0

def natDigitsAux : Nat → Nat → List Char
  | 0, _ => []
  | _ + 1, 0 => []
  | f + 1, n => natDigitsAux f (n / 10) ++ [Char.ofNat (48 + n % 10)]

def natToStr (n : Nat) : String :=
  if n == 0 then "0" else String.mk (natDigitsAux (n + 1) n)

def intToStr (i : Int) : String :=
  match i with
  | .ofNat n => natToStr n
  | .negSucc n => "-" ++ natToStr (n + 1)

/-- Whether the first list is an initial segment of the second. -/
def startsList : List Char → List Char → Bool
  | [], _ => true
  | _ :: _, [] => false
  | a :: as, b :: bs => a == b && startsList as bs

/-- Python substring membership `needle in hay`. -/
def containsSub (needle : List Char) : List Char → Bool
  | [] => needle.isEmpty
  | c :: rest => startsList needle (c :: rest) || containsSub needle rest

/-- Split a character list at a separator character. -/
def splitCh (sep : Char) : List Char → List (List Char)
  | [] => [[]]
  | c :: rest =>
      let r := splitCh sep rest
      if c == sep then [] :: r
      else
        match r with
        | h :: t => (c :: h) :: t
        | [] => [[c]]

/-! ## Schema descriptors -/

/-- A column's declared type, mirroring the `isinstance` dispatch of
`_try_to_set_attribute` (`BigInteger` is a SQLAlchemy subclass of `Integer`,
`Float` of `Numeric`). -/
inductive ColType where
  | integer
  | bigint
  | float
  | numeric
  | string
  | datetime
  | uuid
  | other
deriving DecidableEq

def isIntType : ColType → Bool
  | .integer => true
  | .bigint => true
  | _ => false

def isFloatType : ColType → Bool
  | .float => true
  | .numeric => true
  | _ => false

structure Column where
  key : String
  ctype : ColType
  unique : Bool
  primary : Bool
deriving DecidableEq

/-- A record type's introspected schema: columns in declaration order,
relationship fields (name, target model name), synonym/alias fields
(name, proxied column key), and class-level read-only properties
(`property` attributes with no setter). -/
structure Model where
  name : String
  tablename : String
  columns : List Column
  relationships : List (String × String)
  synonyms : List (String × String)
  readOnlyProps : List String

abbrev Registry := List Model

def findModel (reg : Registry) (n : String) : Option Model :=
  reg.find? (fun m => m.name == n)

def findColumn (m : Model) (k : String) : Column :=
  (m.columns.find? (fun c => c.key == k)).getD ⟨k, ColType.other, false, false⟩

/-- The column key a `setattr`/`getattr` at this name actually reaches: a
synonym descriptor writes and reads through to its proxied column. -/
def resolveSyn (m : Model) (k : String) : String :=
  match m.synonyms.lookup k with
  | some ck => ck
  | none => k

def setAttr (m : Model) (r : Rec) (k : String) (v : Val) : Rec :=
  ⟨r.model, setPairs r.fields (resolveSyn m k) v⟩

def getAttr (m : Model) (r : Rec) (k : String) : Val := getFieldD r (resolveSyn m k)

/-- Python `hasattr(model, key)` at class level. -/
def modelHasAttr (m : Model) (k : String) : Bool :=
  (m.columns.map Column.key).contains k
  || (m.relationships.map Prod.fst).contains k
  || (m.synonyms.map Prod.fst).contains k
  || m.readOnlyProps.contains k

def blankRec (m : Model) : Rec := ⟨m.name, []⟩

/-! ## Session, store, sequences -/

/-- The ambient session: the queryable store of persisted records and the
identifier sequences. Queries and the no-autoflush scope are consumed as a
narrow interface; a lookup never mutates the session in this model. -/
structure Session where
  store : List Rec
  seqs : List (String × Nat)

def seqVal (s : Session) (name : String) : Nat := (s.seqs.lookup name).getD 1

def bumpSeqs : List (String × Nat) → String → List (String × Nat)
  | [], name => [(name, 2)]
  | (n0, v0) :: rest, name =>
      if n0 == name then (n0, v0 + 1) :: rest else (n0, v0) :: bumpSeqs rest name

/-- `db.session.execute(seq)`: return the sequence's next value and advance it. -/
def execSeq (s : Session) (name : String) : Nat × Session :=
  (seqVal s name, ⟨s.store, bumpSeqs s.seqs name⟩)

def addRec (s : Session) (r : Rec) : Session := ⟨s.store ++ [r], s.seqs⟩

/-- `model.query.filter_by(**filters).first()` over the store. -/
def queryFilterBy (s : Session) (m : Model) (filters : Datum) : Option Rec :=
  s.store.find? (fun r =>
    r.model == m.name && filters.all (fun kv => valBeq (getFieldD r kv.fst) kv.snd))

/-- `model.query.get(primary_values)`: lookup by the primary-key columns. -/
def queryGet (s : Session) (m : Model) (vals : List Val) : Option Rec :=
  let pcols := m.columns.filter Column.primary
  s.store.find? (fun r =>
    r.model == m.name
      && pcols.length == vals.length
      && ((pcols.map (fun c => getFieldD r c.key)).zip vals).all (fun p => valBeq p.fst p.snd))

/-! ## Errors -/

/-- The error taxonomy of `bases/errors.py` that the merge engine raises,
each carrying the field it is scoped to and one message, plus `pyErr` for a
raw Python-level exception (TypeError/KeyError/AttributeError). -/
inductive ApiError where
  | dateTimeCast (field : String) (msg : String)
  | decimalCast (field : String) (msg : String)
  | uuidCast (field : String) (msg : String)
  | emptyFilter (field : String) (msg : String)
  | resourceNotFound (field : String) (msg : String)
  | softDeletedErr
  | pyErr (msg : String)
deriving DecidableEq

/-- A single-quote character, used when rendering Python `%r` / quoted
values in error messages. -/
def squo : String := String.mk [Char.ofNat 39]

/-- Minimal Python `repr` of a value, for error-message rendering. -/
def reprV : Val → String
  | .vstr s => squo ++ s ++ squo
  | .vint n => intToStr n
  | .vbool b => if b then "True" else "False"
  | .vnone => "None"
  | _ => "<value>"

/-! ## Spec-modelled external collaborators -/

/-- Modelled from the spec: the identifier-encoding collaborator's `humanize`
(`utils/humanize.py`, not under src/) — a reversible encoding of a numeric
identifier into a recognizable obfuscated string form. -/
def humanize (n : Int) : String := "~" ++ intToStr n

/-- Modelled from the spec: the inverse decoding (`utils/dehumanize.py`, not
under src/) — succeeds exactly on strings of the encoded form. -/
def dehumanizeStr (s : String) : Option Int :=
  match s.toList with
  | c :: rest =>
      if c == '~' && !rest.isEmpty && rest.all isDigitCh then some (Int.ofNat (natOfDigits rest))
      else none
  | [] => none

/-- Modelled from the spec: `utils/is_id_column.py` (not under src/) — a
column holds identifiers when it is the `id` column or a foreign-key-style
`...Id` column. -/
def isIdColumn (c : Column) : Bool :=
  c.key == "id" || (match c.key.toList.reverse with | 'd' :: 'I' :: _ => true | _ => false)

/-- Modelled from the spec: `dehumanize_if_needed(column, value)`
(`utils/dehumanize.py`, not under src/) — decode a value that looks like an
obfuscated identifier of an identifier column; anything else passes through
unchanged. -/
def dehumanizeIfNeeded (c : Column) (v : Val) : Val :=
  if isIdColumn c then
    match v with
    | .vstr s =>
        match dehumanizeStr s with
        | some n => .vint n
        | none => v
    | _ => v
  else v

/-- The result of `Decimal(str)`: an exact decimal, NaN, or a signed infinity. -/
inductive DecV where
  | num : Dec → DecV
  | dnan : DecV
  | dinf : Bool → DecV

/-- The model of Python `decimal.Decimal(str)` used by
`_try_to_set_attribute_with_decimal_value`: leading/trailing whitespace and
underscores are dropped, then an optional sign, a decimal part
(`digits [. digits]` or `. digits`), and an optional exponent are accepted,
as are the case-insensitive special values NaN/sNaN/Inf/Infinity. Anything
else raises `InvalidOperation` (modelled as `none`). -/
def parseDecimal (s : String) : Option DecV :=
  let chars := ((trimChars s.toList).filter (fun c => !(c == '_'))).map Char.toLower
  let (neg, body) :=
    match chars with
    | '-' :: rest => (true, rest)
    | '+' :: rest => (false, rest)
    | rest => (false, rest)
  if body == ['n', 'a', 'n'] || body == ['s', 'n', 'a', 'n'] then some DecV.dnan
  else if (body.take 3 == ['n', 'a', 'n'] && (body.drop 3).all isDigitCh && !(body.drop 3).isEmpty)
       || (body.take 4 == ['s', 'n', 'a', 'n'] && (body.drop 4).all isDigitCh && !(body.drop 4).isEmpty) then
    some DecV.dnan
  else if body == ['i', 'n', 'f'] || body == ['i', 'n', 'f', 'i', 'n', 'i', 't', 'y'] then
    some (DecV.dinf neg)
  else
    let intPart := body.takeWhile isDigitCh
    let rest1 := body.dropWhile isDigitCh
    let (fracPart, rest2) :=
      match rest1 with
      | '.' :: r => (r.takeWhile isDigitCh, r.dropWhile isDigitCh)
      | r => ([], r)
    if intPart.isEmpty && fracPart.isEmpty then none
    else
      let mant : Int := Int.ofNat (natOfDigits (intPart ++ fracPart))
      let signed : Int := if neg then -mant else mant
      match rest2 with
      | [] => some (DecV.num ⟨signed, fracPart.length⟩)
      | 'e' :: erest =>
          let (eneg, edigits) :=
            match erest with
            | '-' :: r => (true, r)
            | '+' :: r => (false, r)
            | r => (false, r)
          if edigits.isEmpty || !edigits.all isDigitCh then none
          else
            let e := natOfDigits edigits
            if eneg then some (DecV.num ⟨signed, fracPart.length + e⟩)
            else some (DecV.num ⟨signed * (10 : Int) ^ e, fracPart.length⟩)
      | _ => none

def decVToVal : DecV → Val
  | .num d => .vdec d
  | .dnan => .vnan
  | .dinf b => .vinf b

/-- Modelled from the spec: `deserialize_datetime` (`utils/date.py`, not
under src/) — deserialization of a string against the fixed accepted formats
(date only, date+time, date+time+seconds); any other value raises the
`TypeError` that `_try_to_set_attribute_with_deserialized_datetime`
catches. -/
def deserializeDatetime (v : Val) : Option DT :=
  match v with
  | .vstr s =>
      let parseDate (ds : List Char) : Option (Nat × Nat × Nat) :=
        match splitCh '-' ds with
        | [y, mo, d] =>
            if y.length == 4 && mo.length == 2 && d.length == 2
               && y.all isDigitCh && mo.all isDigitCh && d.all isDigitCh
               && decide (1 ≤ natOfDigits mo) && decide (natOfDigits mo ≤ 12)
               && decide (1 ≤ natOfDigits d) && decide (natOfDigits d ≤ 31) then
              some (natOfDigits y, natOfDigits mo, natOfDigits d)
            else none
        | _ => none
      let parseTwo (ts : List Char) (bound : Nat) : Option Nat :=
        if ts.length == 2 && ts.all isDigitCh && decide (natOfDigits ts ≤ bound) then
          some (natOfDigits ts)
        else none
      match splitCh ' ' s.toList with
      | [ds] =>
          match parseDate ds with
          | some (y, mo, d) => some ⟨y, mo, d, 0, 0, 0⟩
          | none => none
      | [ds, ts] =>
          match parseDate ds with
          | some (y, mo, d) =>
              match splitCh ':' ts with
              | [h, mi] =>
                  match parseTwo h 23, parseTwo mi 59 with
                  | some hv, some miv => some ⟨y, mo, d, hv, miv, 0⟩
                  | _, _ => none
              | [h, mi, se] =>
                  match parseTwo h 23, parseTwo mi 59, parseTwo se 59 with
                  | some hv, some miv, some sev => some ⟨y, mo, d, hv, miv, sev⟩
                  | _, _, _ => none
              | _ => none
          | none => none
      | _ => none
  | _ => none

def isHexCh (c : Char) : Bool :=
  isDigitCh c || (decide ('a' ≤ c) && decide (c ≤ 'f')) || (decide ('A' ≤ c) && decide (c ≤ 'F'))

/-- Modelled from the spec: Python stdlib `uuid.UUID(value)` validation — a
well-formed UUID is 32 hexadecimal digits up to hyphens. -/
def isValidUuid (s : String) : Bool :=
  let t := s.toList.filter (fun c => !(c == '-'))
  t.length == 32 && t.all isHexCh

/-- Modelled from the spec: `nesting_datum_from` (`utils/datum.py`, not
under src/) — expansion of nested-search annotations at the top of
`create_or_modify`; on a datum carrying no such annotation it is the
identity. -/
def nestingDatumFrom (d : Datum) : Datum := d

/-- Modelled from the spec: the soft-delete collaborator's
`check_not_soft_deleted` (`bases/soft_delete.py`, not under src/) — whether
the instance is marked soft-deleted. -/
def isSoftDeleted (r : Rec) : Bool := valTruthy (getFieldD r "isSoftDeleted")

/-! ## Attribute coercion (`_try_to_set_attribute`, modify.py:223-265) -/

/-- What a single coercion attempt decides: set a coerced value, silently
skip (the fall-through for a string on a column kind outside the dispatch),
or raise a typed cast error. -/
inductive CoerceR where
  | set : Val → CoerceR
  | skip : CoerceR
  | fail : ApiError → CoerceR

/-- `_try_to_set_attribute_with_decimal_value` (modify.py:259-265). -/
def decCoerce (col : Column) (key : String) (s : String) (expectedFormat : String) : CoerceR :=
  match parseDecimal s with
  | some d => .set (decVToVal d)
  | none =>
      .fail (.decimalCast col.key
        ("Invalid value for " ++ key ++ " (" ++ expectedFormat ++ "): " ++ squo ++ s ++ squo))

/-- `_try_to_set_attribute_with_deserialized_datetime` (modify.py:241-248). -/
def dtCoerce (col : Column) (key : String) (v : Val) : CoerceR :=
  match deserializeDatetime v with
  | some d => .set (.vdt d)
  | none =>
      .fail (.dateTimeCast col.key
        ("Invalid value for " ++ key ++ " (datetime): " ++ reprV v))

/-- `_try_to_set_attribute_with_uuid` (modify.py:250-257); note the source
assigns the original string, not the parsed uuid object. -/
def uuidCoerce (col : Column) (key : String) (s : String) : CoerceR :=
  if isValidUuid s then .set (.vstr s)
  else
    .fail (.uuidCast col.key
      ("Invalid value for " ++ key ++ " (uuid): " ++ squo ++ s ++ squo))

def pyStrip (s : String) : String :=
  if !(s == "") then String.mk (trimChars s.toList) else s

def isDtVal : Val → Bool
  | .vdt _ => true
  | _ => false

/-- The value-level decision of `_try_to_set_attribute` (modify.py:223-239):
dehumanize if the column holds identifiers, then dispatch on the value shape
and the column type exactly as the `isinstance` chain does. -/
def coerceOutcome (col : Column) (key : String) (v0 : Val) : CoerceR :=
  let v := dehumanizeIfNeeded col v0
  match v with
  | .vstr s =>
      if isIntType col.ctype then decCoerce col key s "integer"
      else if isFloatType col.ctype then decCoerce col key s "float"
      else if col.ctype == ColType.string then .set (.vstr (pyStrip s))
      else if col.ctype == ColType.datetime then dtCoerce col key (.vstr s)
      else if col.ctype == ColType.uuid then uuidCoerce col key s
      else .skip
  | v =>
      if !isDtVal v && col.ctype == ColType.datetime then dtCoerce col key v
      else .set v

/-- `_try_to_set_attribute` as a state transformer on the instance: on
success the coerced value is assigned (through a synonym descriptor when the
key is a synonym), on a cast error the instance is left as it stood when the
error was raised — the source evaluates the coercion before the `setattr`. -/
def tryToSetAttribute (m : Model) (r : Rec) (col : Column) (key : String) (v : Val) :
    Rec × Option ApiError :=
  match coerceOutcome col key v with
  | .set w => (setAttr m r key w, none)
  | .skip => (r, none)
  | .fail e => (r, some e)

/-! ## Filter builders (modify.py:93-107 and 267-303) -/

/-- `_primary_filter_from` (modify.py:93-98). -/
def primaryFilterFrom (m : Model) (value : Datum) : Datum :=
  (m.columns.filter Column.primary).map
    (fun c => (c.key, dehumanizeIfNeeded c (datumGetD value c.key)))

/-- `_unique_filter_from` (modify.py:100-107): the first unique column in
declaration order that is present in the datum with a truthy value. -/
def uniqueFilterLoop (value : Datum) : List Column → Option Datum
  | [] => none
  | c :: rest =>
      if datumHasKey value c.key then
        if valTruthy (datumGetD value c.key) then
          some [(c.key, dehumanizeIfNeeded c (datumGetD value c.key))]
        else uniqueFilterLoop value rest
      else uniqueFilterLoop value rest

def uniqueFilterFrom (m : Model) (value : Datum) : Option Datum :=
  uniqueFilterLoop value (m.columns.filter Column.unique)

/-- The line-269 condition of `_filter_from`: a `__SEARCH_BY__` key present
with a truthy value. -/
def hasTruthySearchBy (d : Datum) : Bool :=
  match d.lookup "__SEARCH_BY__" with
  | some sb => valTruthy sb
  | none => false

/-- `search_by_keys` normalization of `_filter_from` (modify.py:275-278). -/
def searchByKeyVals (sb : Val) : List Val :=
  match sb with
  | .vlist l => l
  | v => [v]

def searchKeysContain (keys : List Val) (k : String) : Bool :=
  keys.any (fun v => pyEqStr v k)

/-- `_filter_from` (modify.py:267-303). -/
def filterFrom (m : Model) (datum : Datum) : Datum :=
  if !hasTruthySearchBy datum then
    match uniqueFilterFrom m datum with
    | some f => f
    | none => primaryFilterFrom m datum
  else
    let sb := (datum.lookup "__SEARCH_BY__").getD Val.vnone
    let keys := searchByKeyVals sb
    let fromCols : Datum :=
      (m.columns.filter (fun c => searchKeysContain keys c.key)).map
        (fun c => (c.key, dehumanizeIfNeeded c (datumGetD datum c.key)))
    let fromRels : Datum :=
      (m.relationships.filter (fun p => searchKeysContain keys p.fst)).map
        (fun p => (p.fst, datumGetD datum p.fst))
    let fromSyns : Datum :=
      (m.synonyms.filter (fun p => searchKeysContain keys p.fst)).map
        (fun p => (p.fst, dehumanizeIfNeeded (findColumn m p.snd) (datumGetD datum p.fst)))
    (fromCols ++ fromRels ++ fromSyns).foldl (fun acc kv => setPairs acc kv.fst kv.snd) []

/-! ## Deferred-identifier sentinel (modify.py:305-319) -/

/-- `_created_from` (modify.py:305-312): replace the
`__NEXT_ID_IF_NOT_EXISTS__` sentinel on the `id` key by the humanized next
value of the model's identifier sequence. -/
def createdFrom (m : Model) (s : Session) (datum : Datum) : Session × Datum :=
  if datumHasKey datum "id" && pyEqStr (datumGetD datum "id") "__NEXT_ID_IF_NOT_EXISTS__" then
    let (n, s2) := execSeq s (m.tablename ++ "_id_seq")
    (s2, setPairs datum "id" (.vstr (humanize (Int.ofNat n))))
  else (s, datum)

/-- `_existing_from` (modify.py:314-319): strip the sentinel-valued `id` key. -/
def existingFrom (datum : Datum) : Datum :=
  if datumHasKey datum "id" && pyEqStr (datumGetD datum "id") "__NEXT_ID_IF_NOT_EXISTS__" then
    delKey datum "id"
  else datum

/-! ## `find` (modify.py:321-341) -/

def isVstr : Val → Bool
  | .vstr _ => true
  | _ => false

def vstrOrEmpty : Val → String
  | .vstr s => s
  | _ => ""

/-- The `', '.join(search_by) if isinstance(search_by, list) else search_by`
rendering of modify.py:329; joining a list with a non-string element raises
a Python `TypeError`, as does concatenating a non-string. -/
def joinNames (sb : Val) : Option String :=
  match sb with
  | .vlist l =>
      if l.all isVstr then some (String.intercalate ", " (l.map vstrOrEmpty))
      else none
  | .vstr s => some s
  | _ => none

/-- `find` (modify.py:321-341): build the filter; raise `EmptyFilterError`
(naming the declared search keys) when it is empty — reading
`datum['__SEARCH_BY__']`, a `KeyError` when absent — and otherwise query for
at most one match. A lookup never mutates the session, and the
`with_no_autoflush` scope does not change what a lookup returns here. -/
def find (m : Model) (sess : Session) (datum : Datum) (withNoAutoflush : Bool) :
    Except ApiError (Option Rec) :=
  let filters := filterFrom m datum
  if filters.isEmpty then
    match datum.lookup "__SEARCH_BY__" with
    | none => .error (.pyErr "KeyError: __SEARCH_BY__")
    | some sb =>
        match joinNames sb with
        | some names => .error (.emptyFilter "_filter_from" ("None of filters found among: " ++ names))
        | none => .error (.pyErr "TypeError: sequence item expected str instance")
  else .ok (queryFilterBy sess m filters)

/-! ## Relationship propagation (`_value_with_search_by_from_relationships`,
modify.py:155-175) -/

/-- Python `key in sub_value` on the nested relationship value: membership
testing on a dict checks keys, on a list checks elements, on a string checks
substrings, and on anything else (a record instance in particular) raises
`TypeError`. -/
def subHasKey (v : Val) (k : String) : Except ApiError Bool :=
  match v with
  | .vdict d => .ok (datumHasKey d k)
  | .vlist l => .ok (l.any (fun x => pyEqStr x k))
  | .vstr s => .ok (containsSub k.toList s.toList)
  | _ => .error (.pyErr "TypeError: argument is not iterable")

/-- Python `sub_value[key]`: indexing a dict by a string; anything else
raises `TypeError`. -/
def subGetKey (v : Val) (k : String) : Except ApiError Val :=
  match v with
  | .vdict d => .ok (datumGetD d k)
  | _ => .error (.pyErr "TypeError: indices must be integers")

/-- The relationship loop of `_value_with_search_by_from_relationships`
(modify.py:164-171): for every relationship present in the datum, collect
into the working filter the referenced type's unique-column values supplied
by the nested sub-datum, when the current model also exposes that field
name; the accumulator is updated in place exactly as the Python dict is. -/
def relationSearchLoop (reg : Registry) (m : Model) (value : Datum) :
    Datum → List (String × String) → Except ApiError Datum
  | acc, [] => .ok acc
  | acc, (relKey, targetName) :: rest =>
      if datumHasKey value relKey then do
        let relUniqueCols :=
          match findModel reg targetName with
          | some target => target.columns.filter Column.unique
          | none => []
        let subVal := datumGetD value relKey
        let acc2 ← relUniqueCols.foldlM (fun acc2 c => do
          let has ← subHasKey subVal c.key
          if has && modelHasAttr m c.key then
            let w ← subGetKey subVal c.key
            pure (setPairs acc2 c.key w)
          else
            pure acc2) acc
        relationSearchLoop reg m value acc2 rest
      else relationSearchLoop reg m value acc rest

/-- `_value_with_search_by_from_relationships` (modify.py:155-175): merge the
parent's unique filter and the relationship-borrowed unique values into the
datum, together with a `__SEARCH_BY__` sentinel naming exactly the collected
keys; nothing is returned when no entry was collected. -/
def valueWithSearchBy (reg : Registry) (m : Model) (value : Datum)
    (parent : Option (Model × Rec)) : Except ApiError (Option Datum) := do
  let parentFilter : Datum :=
    match parent with
    | some (pm, _) =>
        match uniqueFilterFrom pm value with
        | some f => f
        | none => []
    | none => []
  let searchFilter ← relationSearchLoop reg m value parentFilter m.relationships
  if searchFilter.isEmpty then
    pure none
  else
    let merged := searchFilter.foldl (fun acc kv => setPairs acc kv.fst kv.snd) value
    pure (some (setPairs merged "__SEARCH_BY__"
      (.vlist (searchFilter.map (fun kv => Val.vstr kv.fst)))))

/-- The `PARENT` marker substitution of `_instance_from_search_by_value`
(modify.py:143-152): build `value_dict`, replacing each
`{type: __PARENT__, key: ..}` sub-value by the named attribute of the
enclosing parent record (humanized when the flag is set). -/
def buildValueDict (value : Datum) (parent : Option (Model × Rec)) :
    Except ApiError Datum :=
  value.foldlM (fun acc kv => do
    let (k, sub) := kv
    let w ←
      match sub with
      | .vdict d =>
          if datumHasKey d "type" && pyEqStr (datumGetD d "type") "__PARENT__" then
            match parent with
            | none => Except.error (.pyErr "AttributeError: NoneType has no attribute")
            | some (pm, p) =>
                match datumGetD d "key" with
                | .vstr pk =>
                    let raw := getAttr pm p pk
                    if datumHasKey d "humanized" && valTruthy (datumGetD d "humanized") then
                      match raw with
                      | .vint n => Except.ok (Val.vstr (humanize n))
                      | _ => Except.error (.pyErr "TypeError: humanize expects an integer")
                    else Except.ok raw
                | _ => Except.error (.pyErr "TypeError: getattr attribute name must be string")
          else Except.ok sub
      | _ => Except.ok sub
    pure (setPairs acc k w)) []

/-! ## Outcome types for the stateful pipeline

Python methods here mutate `self` in place and then return `self`, `None`,
a value, or raise; each outcome constructor carries the session and, where
the mutated object outlives the call, its final state. `…nofuel` outcomes
report exhaustion of the recursion fuel (the source has no cycle guard, so
its recursion is bounded only by Python's stack). -/

structure MOpts where
  withAdd : Bool
  withCheckNotSoftDeleted : Bool
  withFlush : Bool
  withNoAutoflush : Bool

def defaultOpts : MOpts := ⟨false, true, false, true⟩

/-- Outcome of `modify`: `ret` returns (`returnedSelf = false` is the bare
`return` of modify.py:85, which returns `None`), `merr` raises; `self` is
the instance's state at exit in every case. -/
inductive MOut where
  | ret : Session → Rec → Bool → MOut
  | merr : Session → Rec → ApiError → MOut
  | mnofuel : Session → Rec → MOut

/-- Outcome of `instance_from`: an arbitrary value. -/
inductive VOut where
  | vok : Session → Val → VOut
  | verr : Session → ApiError → VOut
  | vnofuel : Session → VOut

/-- Outcome of the resolver helpers and `create_or_modify`: an optional
record (`none` is Python `None`). -/
inductive ROut where
  | rok : Session → Option Rec → ROut
  | rerr : Session → ApiError → ROut
  | rnofuel : Session → ROut

/-- Outcome of `model(**datum)` construction. -/
inductive IOut where
  | iok : Session → Rec → IOut
  | ierr : Session → ApiError → IOut
  | inofuel : Session → IOut

/-- Outcome of mapping `instance_from` over a sequence. -/
inductive LOut where
  | lok : Session → List Val → LOut
  | lerr : Session → ApiError → LOut
  | lnofuel : Session → LOut

/-- The instance's state at exit of a `modify` call, on every outcome. -/
def mOutRec : MOut → Rec
  | .ret _ r _ => r
  | .merr _ r _ => r
  | .mnofuel _ r => r

def mOutSess : MOut → Session
  | .ret s _ _ => s
  | .merr s _ _ => s
  | .mnofuel s _ => s

/-! ## The loops of `modify` over the partitioned datum keys -/

/-- The plain-column loop of `modify` (modify.py:55-59): coerce and assign
each column key present in the datum; a cast error aborts the loop,
keeping the assignments already made. -/
def colPass (m : Model) (r : Rec) (cols : List Column) (datum : Datum) :
    Rec × Option ApiError :=
  match cols with
  | [] => (r, none)
  | c :: rest =>
      match tryToSetAttribute m r c c.key (datumGetD datum c.key) with
      | (r2, some e) => (r2, some e)
      | (r2, none) => colPass m r2 rest datum

/-- The synonym loop of `modify` (modify.py:72-75): coerce against the
proxied column and assign through the synonym. -/
def synPass (m : Model) (r : Rec) (syns : List (String × String)) (datum : Datum) :
    Rec × Option ApiError :=
  match syns with
  | [] => (r, none)
  | (synKey, colKey) :: rest =>
      match tryToSetAttribute m r (findColumn m colKey) synKey (datumGetD datum synKey) with
      | (r2, some e) => (r2, some e)
      | (r2, none) => synPass m r2 rest datum

/-- The remaining-keys loop of `modify` (modify.py:77-86): a key naming a
read-only class property triggers the bare `return` (abandoning every
remaining key); any other key is assigned directly. The returned flag
records whether the early return fired. -/
def otherPass (m : Model) (r : Rec) (keys : List String) (datum : Datum) : Rec × Bool :=
  match keys with
  | [] => (r, false)
  | k :: rest =>
      if m.readOnlyProps.contains k then (r, true)
      else otherPass m (setAttr m r k (datumGetD datum k)) rest datum

/-- `set(datum.keys()) - set(skipped_keys)` (modify.py:53), in datum order. -/
def datumKeys (datum : Datum) (skipped : List String) : List String :=
  (datum.map Prod.fst).filter (fun k => !(skipped.contains k))

/-- The `other_keys_to_modify` computation of modify.py:77-80: the datum
keys that are neither columns nor relationships nor synonyms. -/
def otherKeysOf (m : Model) (datum : Datum) (skipped : List String) : List String :=
  (datumKeys datum skipped).filter (fun k =>
    !((m.columns.map Column.key).contains k)
      && !((m.relationships.map Prod.fst).contains k)
      && !((m.synonyms.map Prod.fst).contains k))

def lbrace : String := String.mk [Char.ofNat 123]

def rbrace : String := String.mk [Char.ofNat 125]

def jsonOfVal : Val → String
  | .vstr s => "\"" ++ s ++ "\""
  | .vint n => intToStr n
  | .vbool b => if b then "true" else "false"
  | .vnone => "null"
  | _ => "\"<value>\""

/-- `json.dumps(filters)` as used in the `find_and_modify` error message. -/
def jsonOfFilters (fs : Datum) : String :=
  lbrace
    ++ String.intercalate ", " (fs.map (fun kv => "\"" ++ kv.fst ++ "\": " ++ jsonOfVal kv.snd))
    ++ rbrace

/-! ## The mutually recursive merge pipeline (modify.py:39-91, 109-221,
  343-385), indexed by fuel -/

mutual

/-- `modify` (modify.py:39-91). -/
def modifyF : Nat → Registry → Model → Session → Rec → Datum → List String → MOpts → MOut
  | 0, _, _, sess, self, _, _, _ => .mnofuel sess self
  | fuel + 1, reg, m, sess, self, datum, skipped, opts =>
      let sess := if opts.withAdd then addRec sess self else sess
      if opts.withCheckNotSoftDeleted && isSoftDeleted self then
        .merr sess self .softDeletedErr
      else
        let dkeys := datumKeys datum skipped
        let colsToModify := m.columns.filter (fun c => dkeys.contains c.key)
        match colPass m self colsToModify datum with
        | (self, some e) => .merr sess self e
        | (self, none) =>
            let relsToModify := m.relationships.filter (fun p => dkeys.contains p.fst)
            match relPass fuel reg m sess self relsToModify datum opts.withNoAutoflush with
            | .merr s self e => .merr s self e
            | .mnofuel s self => .mnofuel s self
            | .ret sess self _ =>
                let synsToModify := m.synonyms.filter (fun p => dkeys.contains p.fst)
                match synPass m self synsToModify datum with
                | (self, some e) => .merr sess self e
                | (self, none) =>
                    match otherPass m self (otherKeysOf m datum skipped) datum with
                    | (self, true) => .ret sess self false
                    | (self, false) =>
                        -- with_flush: the explicit flush is the persistence
                        -- collaborator's, a no-op on this model of the session
                        .ret sess self true
termination_by structural fuel _ _ _ _ _ _ _ => fuel

/-- The relationship loop of `modify` (modify.py:61-70): resolve each
relationship value via `instance_from` of the target model with `self` as
parent; a truthy resolution is assigned, a falsy one leaves the
relationship untouched. -/
def relPass : Nat → Registry → Model → Session → Rec → List (String × String) → Datum → Bool → MOut
  | 0, _, _, sess, self, _, _, _ => .mnofuel sess self
  | fuel + 1, reg, m, sess, self, rels, datum, wna =>
      match rels with
      | [] => .ret sess self true
      | (key, targetName) :: rest =>
          match findModel reg targetName with
          | none => .merr sess self (.pyErr "AttributeError: unknown mapper")
          | some target =>
              match instanceFromF fuel reg target sess (datumGetD datum key) (some (m, self)) wna with
              | .verr s e => .merr s self e
              | .vnofuel s => .mnofuel s self
              | .vok s v =>
                  let self := if valTruthy v then setAttr m self key v else self
                  relPass fuel reg m s self rest datum wna
termination_by structural fuel _ _ _ _ _ _ _ => fuel

/-- `instance_from` (modify.py:189-221). Note modify.py:203 (`instance =
None`) immediately overwrites the relationship-propagated resolution; the
call is still made (its session effects survive, and an error it raises
propagates), but its result is discarded. -/
def instanceFromF : Nat → Registry → Model → Session → Val → Option (Model × Rec) → Bool → VOut
  | 0, _, _, sess, _, _, _ => .vnofuel sess
  | fuel + 1, reg, m, sess, value, parent, wna =>
      match value with
      | .vinst mn fs =>
          if mn == m.name then .vok sess (.vinst mn fs)
          else .vok sess (.vinst mn fs)
      | .vdict entries =>
          if datumHasKey entries "__SEARCH_BY__" then
            match instanceFromSearchByValueF fuel reg m sess entries parent wna with
            | .rok s r => .vok s (match r with | some rc => recToVal rc | none => .vnone)
            | .rerr s e => .verr s e
            | .rnofuel s => .vnofuel s
          else
            match instanceFromRelationshipsF fuel reg m sess entries parent wna with
            | .rerr s e => .verr s e
            | .rnofuel s => .vnofuel s
            | .rok s _ =>
                -- modify.py:203: `instance = None` (dead store)
                match instanceFromPrimariesF fuel reg m s entries wna with
                | .rerr s e => .verr s e
                | .rnofuel s => .vnofuel s
                | .rok s inst? =>
                    match inst? with
                    | some i => .vok s (recToVal i)
                    | none =>
                        match instanceFromUnicityF fuel reg m s entries wna with
                        | .rerr s e => .verr s e
                        | .rnofuel s => .vnofuel s
                        | .rok s (some i) => .vok s (recToVal i)
                        | .rok s none =>
                            match mkInstanceF fuel reg m s entries with
                            | .iok s r => .vok s (recToVal r)
                            | .ierr s e => .verr s e
                            | .inofuel s => .vnofuel s
      | .vlist elems =>
          match instanceFromListF fuel reg m sess elems parent wna with
          | .lok s vs => .vok s (.vlist vs)
          | .lerr s e => .verr s e
          | .lnofuel s => .vnofuel s
      | .vstr s =>
          -- Python strings are iterable: `hasattr(value, '__iter__')` holds,
          -- so a string is mapped over character by character
          match instanceFromListF fuel reg m sess (s.toList.map (fun c => Val.vstr (String.mk [c]))) parent wna with
          | .lok s2 vs => .vok s2 (.vlist vs)
          | .lerr s2 e => .verr s2 e
          | .lnofuel s2 => .vnofuel s2
      | v => .vok sess v
termination_by structural fuel _ _ _ _ _ _ => fuel

/-- The sequence branch of `instance_from` (modify.py:214-220). -/
def instanceFromListF : Nat → Registry → Model → Session → List Val → Option (Model × Rec) → Bool → LOut
  | 0, _, _, sess, _, _, _ => .lnofuel sess
  | fuel + 1, reg, m, sess, elems, parent, wna =>
      match elems with
      | [] => .lok sess []
      | v :: rest =>
          match instanceFromF fuel reg m sess v parent wna with
          | .verr s e => .lerr s e
          | .vnofuel s => .lnofuel s
          | .vok s w =>
              match instanceFromListF fuel reg m s rest parent wna with
              | .lok s2 ws => .lok s2 (w :: ws)
              | .lerr s2 e => .lerr s2 e
              | .lnofuel s2 => .lnofuel s2
termination_by structural fuel _ _ _ _ _ _ => fuel

/-- `_instance_from_primaries` (modify.py:109-122): primary-key lookup, and
on a hit `instance.modify(value)` is returned (so its `None` early return
propagates). -/
def instanceFromPrimariesF : Nat → Registry → Model → Session → Datum → Bool → ROut
  | 0, _, _, sess, _, _ => .rnofuel sess
  | fuel + 1, reg, m, sess, value, wna =>
      let pf := primaryFilterFrom m value
      if (pf.map Prod.snd).all valTruthy then
        match queryGet sess m (pf.map Prod.snd) with
        | some instance0 =>
            match modifyF fuel reg m sess instance0 value [] defaultOpts with
            | .ret s self returnedSelf => .rok s (if returnedSelf then some self else none)
            | .merr s _ e => .rerr s e
            | .mnofuel s _ => .rnofuel s
        | none => .rok sess none
      else .rok sess none
termination_by structural fuel _ _ _ _ _ => fuel

/-- `_instance_from_unicity` (modify.py:124-136). -/
def instanceFromUnicityF : Nat → Registry → Model → Session → Datum → Bool → ROut
  | 0, _, _, sess, _, _ => .rnofuel sess
  | fuel + 1, reg, m, sess, value, wna =>
      match uniqueFilterFrom m value with
      | some uf =>
          match queryFilterBy sess m uf with
          | some instance0 =>
              match modifyF fuel reg m sess instance0 value [] defaultOpts with
              | .ret s self returnedSelf => .rok s (if returnedSelf then some self else none)
              | .merr s _ e => .rerr s e
              | .mnofuel s _ => .rnofuel s
          | none => .rok sess none
      | none => .rok sess none
termination_by structural fuel _ _ _ _ _ => fuel

/-- `_instance_from_search_by_value` (modify.py:138-153): substitute
`PARENT` markers from the enclosing parent record, then resolve through
`create_or_modify`. -/
def instanceFromSearchByValueF : Nat → Registry → Model → Session → Datum → Option (Model × Rec) → Bool → ROut
  | 0, _, _, sess, _, _, _ => .rnofuel sess
  | fuel + 1, reg, m, sess, value, parent, wna =>
      match buildValueDict value parent with
      | .error e => .rerr sess e
      | .ok valueDict => createOrModifyF fuel reg m sess valueDict false false wna
termination_by structural fuel _ _ _ _ _ _ => fuel

/-- `_instance_from_relationships` (modify.py:177-187). -/
def instanceFromRelationshipsF : Nat → Registry → Model → Session → Datum → Option (Model × Rec) → Bool → ROut
  | 0, _, _, sess, _, _, _ => .rnofuel sess
  | fuel + 1, reg, m, sess, value, parent, wna =>
      match valueWithSearchBy reg m value parent with
      | .error e => .rerr sess e
      | .ok none => .rok sess none
      | .ok (some enriched) =>
          instanceFromSearchByValueF fuel reg m sess enriched parent wna
termination_by structural fuel _ _ _ _ _ _ => fuel

/-- `model(**datum)`: `Modify.__init__` (modify.py:36-37) runs the full
merge pipeline on the fresh blank instance; the value `modify` returns is
discarded, so its `None` early return still yields the constructed object,
while an error it raises aborts the construction. -/
def mkInstanceF : Nat → Registry → Model → Session → Datum → IOut
  | 0, _, _, sess, _ => .inofuel sess
  | fuel + 1, reg, m, sess, datum =>
      match modifyF fuel reg m sess (blankRec m) datum [] defaultOpts with
      | .ret s self _ => .iok s self
      | .merr s _ e => .ierr s e
      | .mnofuel s _ => .inofuel s
termination_by structural fuel _ _ _ _ => fuel

/-- `create_or_modify` (modify.py:365-385). -/
def createOrModifyF : Nat → Registry → Model → Session → Datum → Bool → Bool → Bool → ROut
  | 0, _, _, sess, _, _, _, _ => .rnofuel sess
  | fuel + 1, reg, m, sess, datum, withAdd, withFlush, wna =>
      let nesting := nestingDatumFrom datum
      match find m sess nesting wna with
      | .error e => .rerr sess e
      | .ok (some entity) =>
          match modifyF fuel reg m sess entity (existingFrom nesting) [] ⟨withAdd, true, withFlush, wna⟩ with
          | .ret s self returnedSelf => .rok s (if returnedSelf then some self else none)
          | .merr s _ e => .rerr s e
          | .mnofuel s _ => .rnofuel s
      | .ok none =>
          match createdFrom m sess nesting with
          | (sess2, created) =>
              match mkInstanceF fuel reg m sess2 created with
              | .iok s entity =>
                  let s := if withAdd then addRec s entity else s
                  -- with_flush: external persistence, a no-op here
                  .rok s (some entity)
              | .ierr s e => .rerr s e
              | .inofuel s => .rnofuel s
termination_by structural fuel _ _ _ _ _ _ _ => fuel

/-- `find_or_create` (modify.py:343-350). -/
def findOrCreateF : Nat → Registry → Model → Session → Datum → Bool → ROut
  | 0, _, _, sess, _, _ => .rnofuel sess
  | fuel + 1, reg, m, sess, datum, wna =>
      match find m sess datum wna with
      | .error e => .rerr sess e
      | .ok (some entity) => .rok sess (some entity)
      | .ok none =>
          match createdFrom m sess datum with
          | (sess2, created) =>
              match mkInstanceF fuel reg m sess2 created with
              | .iok s entity => .rok s (some entity)
              | .ierr s e => .rerr s e
              | .inofuel s => .rnofuel s

/-- `find_and_modify` (modify.py:352-363). -/
def findAndModifyF : Nat → Registry → Model → Session → Datum → Bool → ROut
  | 0, _, _, sess, _, _ => .rnofuel sess
  | fuel + 1, reg, m, sess, datum, wna =>
      match find m sess datum wna with
      | .error e => .rerr sess e
      | .ok none =>
          .rerr sess (.resourceNotFound "find_and_modify"
            ("No ressource found with " ++ jsonOfFilters (filterFrom m datum) ++ " "))
      | .ok (some entity) =>
          match modifyF fuel reg m sess entity (existingFrom datum) [] defaultOpts with
          | .ret s self returnedSelf => .rok s (if returnedSelf then some self else none)
          | .merr s _ e => .rerr s e
          | .mnofuel s _ => .rnofuel s

end

/-! ## Concrete schemas and scenarios

Small instantiations of the schema descriptor used to evaluate the pipeline
at concrete inputs: a plain record type with an identifier sequence, a
join-record type located through the unique codes of the two types it
joins, a type with a synonym, one with a read-only class property, and
single-column types exercising the coercion dispatch. -/

def thingModel : Model :=
  ⟨"Thing", "thing",
   [⟨"id", .integer, false, true⟩, ⟨"name", .string, false, false⟩], [], [], []⟩

def scoreCol : Column := ⟨"score", .integer, false, false⟩

def scoreModel : Model := ⟨"Score", "score", [scoreCol], [], [], []⟩

def scoreRec : Rec := ⟨"Score", []⟩

def flagCol : Column := ⟨"flag", .other, false, false⟩

def flagModel : Model := ⟨"Flag", "flag", [flagCol], [], [], []⟩

def flagRec : Rec := ⟨"Flag", [("flag", .vbool true)]⟩

def msModel : Model :=
  ⟨"Ms", "ms",
   [⟨"id", .integer, false, true⟩, ⟨"missingField", .string, false, false⟩], [], [], []⟩

def ms2Model : Model := ⟨"Ms2", "ms2", [⟨"id", .integer, false, true⟩], [], [], []⟩

def fbModel : Model :=
  ⟨"Fb", "fb",
   [⟨"id", .integer, false, true⟩, ⟨"code", .string, true, false⟩], [], [], []⟩

def fbDatum : Datum := [("id", .vint 3), ("code", .vstr "u")]

def leftModel : Model :=
  ⟨"Left", "left",
   [⟨"id", .integer, false, true⟩, ⟨"leftCode", .string, true, false⟩], [], [], []⟩

def rightModel : Model :=
  ⟨"Right", "right",
   [⟨"id", .integer, false, true⟩, ⟨"rightCode", .string, true, false⟩], [], [], []⟩

def joinModel : Model :=
  ⟨"Join", "join_record",
   [⟨"id", .integer, false, true⟩, ⟨"leftCode", .string, false, false⟩,
    ⟨"rightCode", .string, false, false⟩],
   [("left", "Left"), ("right", "Right")], [], []⟩

def joinReg : Registry := [leftModel, rightModel, joinModel]

def leftRec : Rec := ⟨"Left", [("id", .vint 1), ("leftCode", .vstr "A")]⟩

def rightRec : Rec := ⟨"Right", [("id", .vint 2), ("rightCode", .vstr "B")]⟩

def joinRec : Rec :=
  ⟨"Join", [("id", .vint 7), ("leftCode", .vstr "A"), ("rightCode", .vstr "B")]⟩

def joinSess : Session := ⟨[leftRec, rightRec, joinRec], []⟩

/-- The join-record datum of the relationship-propagation scenario: each
relationship field carries a nested datum supplying a value for a unique
column of the referenced type, and the join record itself declares no
unique columns. -/
def joinDatum : Datum :=
  [("left", .vdict [("leftCode", .vstr "A")]),
   ("right", .vdict [("rightCode", .vstr "B")])]

def roModel : Model :=
  ⟨"Ro", "ro", [⟨"id", .integer, false, true⟩], [], [], ["computedThing"]⟩

def roRec : Rec := ⟨"Ro", [("id", .vint 1)]⟩

def synModel : Model :=
  ⟨"User", "user", [⟨"metier", .string, false, false⟩], [], [("job", "metier")], []⟩

/-! ## Association-list lemmas -/

theorem beqf_of_ne {a b : String} (h : a ≠ b) : (a == b) = false := by
  simpa [beq_iff_eq] using h

theorem lookup_setPairs_self (l : List (String × Val)) (k : String) (v : Val) :
    (setPairs l k v).lookup k = some v := by
  induction l with
  | nil => simp [setPairs, List.lookup]
  | cons hd tl ih =>
      obtain ⟨k0, v0⟩ := hd
      by_cases h : k0 = k
      · simp [setPairs, h, List.lookup]
      · simp only [setPairs, beqf_of_ne h, Bool.false_eq_true, if_false, List.lookup,
          beqf_of_ne (Ne.symm h)]
        exact ih

theorem lookup_setPairs_ne (l : List (String × Val)) (k v t) (h : t ≠ k) :
    (setPairs l k v).lookup t = l.lookup t := by
  induction l with
  | nil => simp [setPairs, List.lookup, beqf_of_ne h]
  | cons hd tl ih =>
      obtain ⟨k0, v0⟩ := hd
      by_cases h0 : k0 = k
      · subst h0
        simp [setPairs, List.lookup, beqf_of_ne h]
      · simp only [setPairs, beqf_of_ne h0, Bool.false_eq_true, if_false, List.lookup]
        by_cases ht : t = k0
        · simp [ht]
        · simp only [beqf_of_ne ht]
          exact ih

theorem setPairs_of_lookup_eq (l : List (String × Val)) (k v) (h : l.lookup k = some v) :
    setPairs l k v = l := by
  induction l with
  | nil => simp [List.lookup] at h
  | cons hd tl ih =>
      obtain ⟨k0, v0⟩ := hd
      by_cases h0 : k0 = k
      · subst h0
        simp only [List.lookup, beq_self_eq_true] at h
        simp only [setPairs, beq_self_eq_true, if_true]
        simp at h
        rw [h]
      · simp only [List.lookup, beqf_of_ne (Ne.symm h0)] at h
        simp only [setPairs, beqf_of_ne h0, Bool.false_eq_true, if_false]
        rw [ih h]

theorem mem_keys_setPairs (l : List (String × Val)) (k v t) :
    t ∈ (setPairs l k v).map Prod.fst ↔ t = k ∨ t ∈ l.map Prod.fst := by
  induction l with
  | nil => simp [setPairs]
  | cons hd tl ih =>
      obtain ⟨k0, v0⟩ := hd
      by_cases h0 : k0 = k
      · subst h0
        simp only [setPairs, beq_self_eq_true, if_true, List.map_cons, List.mem_cons]
        tauto
      · simp only [setPairs, beqf_of_ne h0, Bool.false_eq_true, if_false, List.map_cons,
          List.mem_cons, ih]
        tauto

theorem setPairs_ne_nil (l : List (String × Val)) (k v) : setPairs l k v ≠ [] := by
  cases l with
  | nil => simp [setPairs]
  | cons hd tl =>
      obtain ⟨k0, v0⟩ := hd
      by_cases h0 : k0 = k
      · simp [setPairs, h0]
      · simp [setPairs, beqf_of_ne h0]

theorem keys_delKey (l : List (String × Val)) (k : String) (h : (l.map Prod.fst).Nodup) :
    k ∉ (delKey l k).map Prod.fst := by
  induction l with
  | nil => simp [delKey]
  | cons hd tl ih =>
      obtain ⟨k0, v0⟩ := hd
      simp only [List.map_cons, List.nodup_cons] at h
      by_cases h0 : k0 = k
      · subst h0
        simpa [delKey] using h.1
      · simp only [delKey, beqf_of_ne h0, Bool.false_eq_true, if_false, List.map_cons,
          List.mem_cons]
        rintro (rfl | hmem)
        · exact h0 rfl
        · exact ih h.2 hmem

/-! ## Frame lemmas: which storage keys a merge step can touch -/

theorem containsStr_iff_mem {l : List String} {k : String} : l.contains k = true ↔ k ∈ l := by
  induction l with
  | nil => simp
  | cons hd tl ih => simp [List.contains, List.elem_cons, ih]

theorem model_setAttr (m : Model) (r : Rec) (k v) : (setAttr m r k v).model = r.model := rfl

theorem lookup_setAttr_ne (m : Model) (r : Rec) (k v t) (h : t ≠ resolveSyn m k) :
    (setAttr m r k v).fields.lookup t = r.fields.lookup t :=
  lookup_setPairs_ne r.fields (resolveSyn m k) v t h

theorem tryToSet_model (m : Model) (r : Rec) (c key v) :
    (tryToSetAttribute m r c key v).1.model = r.model := by
  unfold tryToSetAttribute
  cases coerceOutcome c key v <;> rfl

theorem lookup_tryToSet_ne (m : Model) (r : Rec) (c key v t) (h : t ≠ resolveSyn m key) :
    (tryToSetAttribute m r c key v).1.fields.lookup t = r.fields.lookup t := by
  unfold tryToSetAttribute
  cases coerceOutcome c key v with
  | set w => exact lookup_setAttr_ne m r key w t h
  | skip => rfl
  | fail e => rfl

theorem colPass_frame (m : Model) (d : Datum) :
    ∀ (cols : List Column) (r : Rec) (t : String),
      (∀ c ∈ cols, t ≠ resolveSyn m c.key) →
      (colPass m r cols d).1.fields.lookup t = r.fields.lookup t := by
  intro cols
  induction cols with
  | nil => intro r t h; rfl
  | cons c rest ih =>
      intro r t h
      have hhead : t ≠ resolveSyn m c.key := h c (List.mem_cons_self c rest)
      have hrest : ∀ c2 ∈ rest, t ≠ resolveSyn m c2.key :=
        fun c2 hc2 => h c2 (List.mem_cons_of_mem c hc2)
      simp only [colPass]
      rcases hres : tryToSetAttribute m r c c.key (datumGetD d c.key) with ⟨r2, e⟩
      have hlook : r2.fields.lookup t = r.fields.lookup t := by
        have := lookup_tryToSet_ne m r c c.key (datumGetD d c.key) t hhead
        rwa [hres] at this
      cases e with
      | some err => simpa using hlook
      | none => simpa using (ih r2 t hrest).trans hlook

theorem colPass_model (m : Model) (d : Datum) :
    ∀ (cols : List Column) (r : Rec), (colPass m r cols d).1.model = r.model := by
  intro cols
  induction cols with
  | nil => intro r; rfl
  | cons c rest ih =>
      intro r
      simp only [colPass]
      rcases hres : tryToSetAttribute m r c c.key (datumGetD d c.key) with ⟨r2, e⟩
      have hm : r2.model = r.model := by
        have := tryToSet_model m r c c.key (datumGetD d c.key)
        rwa [hres] at this
      cases e with
      | some err => simpa using hm
      | none => simpa using (ih r2).trans hm

theorem synPass_frame (m : Model) (d : Datum) :
    ∀ (syns : List (String × String)) (r : Rec) (t : String),
      (∀ p ∈ syns, t ≠ resolveSyn m p.fst) →
      (synPass m r syns d).1.fields.lookup t = r.fields.lookup t := by
  intro syns
  induction syns with
  | nil => intro r t h; rfl
  | cons p rest ih =>
      intro r t h
      obtain ⟨synKey, colKey⟩ := p
      have hhead : t ≠ resolveSyn m synKey := h (synKey, colKey) (List.mem_cons_self _ rest)
      have hrest : ∀ p2 ∈ rest, t ≠ resolveSyn m p2.fst :=
        fun p2 hp2 => h p2 (List.mem_cons_of_mem _ hp2)
      simp only [synPass]
      rcases hres : tryToSetAttribute m r (findColumn m colKey) synKey (datumGetD d synKey)
        with ⟨r2, e⟩
      have hlook : r2.fields.lookup t = r.fields.lookup t := by
        have := lookup_tryToSet_ne m r (findColumn m colKey) synKey (datumGetD d synKey) t hhead
        rwa [hres] at this
      cases e with
      | some err => simpa using hlook
      | none => simpa using (ih r2 t hrest).trans hlook

theorem otherPass_frame (m : Model) (d : Datum) :
    ∀ (keys : List String) (r : Rec) (t : String),
      (∀ k ∈ keys, t ≠ resolveSyn m k) →
      (otherPass m r keys d).1.fields.lookup t = r.fields.lookup t := by
  intro keys
  induction keys with
  | nil => intro r t h; rfl
  | cons k rest ih =>
      intro r t h
      have hhead : t ≠ resolveSyn m k := h k (List.mem_cons_self k rest)
      have hrest : ∀ k2 ∈ rest, t ≠ resolveSyn m k2 :=
        fun k2 hk2 => h k2 (List.mem_cons_of_mem k hk2)
      by_cases hro : m.readOnlyProps.contains k = true
      · simp [otherPass, containsStr_iff_mem.mp hro]
      · simp only [otherPass]
        rw [if_neg hro]
        exact (ih _ t hrest).trans (lookup_setAttr_ne m r k (datumGetD d k) t hhead)

/-- The early-return flag of the remaining-keys loop fires exactly when some
remaining key names a read-only class property. -/
theorem otherPass_flag (m : Model) (d : Datum) :
    ∀ (keys : List String) (r : Rec),
      (otherPass m r keys d).2 = keys.any (fun k => m.readOnlyProps.contains k) := by
  intro keys
  induction keys with
  | nil => intro r; rfl
  | cons k rest ih =>
      intro r
      by_cases hro : m.readOnlyProps.contains k = true
      · simp [otherPass, containsStr_iff_mem.mp hro]
      · simp only [otherPass, List.any_cons]
        rw [if_neg hro]
        simp only [ih]
        cases hc : m.readOnlyProps.contains k
        · simp
        · exact absurd hc hro

theorem relPass_frame (reg : Registry) (m : Model) (d : Datum) (wna : Bool) (t : String) :
    ∀ (fuel : Nat) (rels : List (String × String)) (sess : Session) (r : Rec),
      (∀ p ∈ rels, t ≠ resolveSyn m p.fst) →
      (mOutRec (relPass fuel reg m sess r rels d wna)).fields.lookup t = r.fields.lookup t := by
  intro fuel
  induction fuel with
  | zero => intro rels sess r h; rfl
  | succ fuel ih =>
      intro rels sess r h
      cases rels with
      | nil => rfl
      | cons p rest =>
          obtain ⟨key, targetName⟩ := p
          have hhead : t ≠ resolveSyn m key := h (key, targetName) (List.mem_cons_self _ rest)
          have hrest : ∀ p2 ∈ rest, t ≠ resolveSyn m p2.fst :=
            fun p2 hp2 => h p2 (List.mem_cons_of_mem _ hp2)
          simp only [relPass]
          cases findModel reg targetName with
          | none => rfl
          | some target =>
              cases hres : instanceFromF fuel reg target sess (datumGetD d key) (some (m, r)) wna with
              | verr s e => simp only [hres]; rfl
              | vnofuel s => simp only [hres]; rfl
              | vok s v =>
                  simp only [hres]
                  by_cases htr : valTruthy v = true
                  · rw [if_pos htr]
                    exact (ih rest s _ hrest).trans (lookup_setAttr_ne m r key v t hhead)
                  · rw [if_neg htr]
                    exact ih rest s r hrest

/-- Frame of the tail of `modify` after the relationship pass: the synonym
and remaining-keys loops only write at their own keys. -/
theorem modifyTail_frame (m : Model) (datum : Datum) (t : String)
    (syns : List (String × String)) (others : List String)
    (hsyns : ∀ p ∈ syns, t ≠ resolveSyn m p.fst)
    (hothers : ∀ k ∈ others, t ≠ resolveSyn m k) (r2 : Rec) :
    ∀ (o : MOut), (mOutRec o).fields.lookup t = r2.fields.lookup t →
      (mOutRec (match o with
        | MOut.merr s self e => MOut.merr s self e
        | MOut.mnofuel s self => MOut.mnofuel s self
        | MOut.ret sess self a =>
            match synPass m self syns datum with
            | (self, some e) => MOut.merr sess self e
            | (self, none) =>
                match otherPass m self others datum with
                | (self, true) => MOut.ret sess self false
                | (self, false) => MOut.ret sess self true)).fields.lookup t
        = r2.fields.lookup t := by
  intro o ho
  cases o with
  | merr s self e => exact ho
  | mnofuel s self => exact ho
  | ret s self a =>
      have ho2 : self.fields.lookup t = r2.fields.lookup t := ho
      dsimp only
      rcases hsp : synPass m self syns datum with ⟨r4, e4⟩
      have hl4 : r4.fields.lookup t = self.fields.lookup t := by
        have := synPass_frame m datum syns self t hsyns
        rwa [hsp] at this
      cases e4 with
      | some err => simpa using hl4.trans ho2
      | none =>
          dsimp only
          rcases hop : otherPass m r4 others datum with ⟨r5, b5⟩
          have hl5 : r5.fields.lookup t = r4.fields.lookup t := by
            have := otherPass_frame m datum others r4 t hothers
            rwa [hop] at this
          cases b5 with
          | true => simpa using (hl5.trans hl4).trans ho2
          | false => simpa using (hl5.trans hl4).trans ho2

/-- The frame property of the whole merge: `modify` can only write at
storage keys reached from the datum's keys (through synonym resolution);
every other attribute of the instance is untouched, on every outcome. -/
theorem modifyF_frame (reg : Registry) (m : Model) (datum : Datum) (skipped : List String)
    (opts : MOpts) (t : String)
    (h : ∀ k ∈ datumKeys datum skipped, t ≠ resolveSyn m k) :
    ∀ (fuel : Nat) (sess : Session) (r : Rec),
      (mOutRec (modifyF fuel reg m sess r datum skipped opts)).fields.lookup t
        = r.fields.lookup t := by
  intro fuel sess r
  cases fuel with
  | zero => rfl
  | succ fuel =>
      simp only [modifyF]
      by_cases hsd : (opts.withCheckNotSoftDeleted && isSoftDeleted r) = true
      · rw [if_pos hsd]
        rfl
      · rw [if_neg hsd]
        rcases hcp : colPass m r
            (m.columns.filter (fun c => (datumKeys datum skipped).contains c.key)) datum
          with ⟨r2, e⟩
        have hl2 : r2.fields.lookup t = r.fields.lookup t := by
          have := colPass_frame m datum
            (m.columns.filter (fun c => (datumKeys datum skipped).contains c.key)) r t
            (by
              intro c hc
              rw [List.mem_filter] at hc
              exact h c.key (by simpa using hc.2))
          rwa [hcp] at this
        cases e with
        | some err => simpa using hl2
        | none =>
            dsimp only
            refine Eq.trans (modifyTail_frame m datum t _ _ ?_ ?_ r2 _ ?_) hl2
            · intro p hp
              rw [List.mem_filter] at hp
              exact h p.fst (by simpa using hp.2)
            · intro k hk
              unfold otherKeysOf at hk
              rw [List.mem_filter] at hk
              exact h k hk.1
            · have := relPass_frame reg m datum opts.withNoAutoflush t fuel
                (m.relationships.filter (fun p => (datumKeys datum skipped).contains p.fst))
                (if opts.withAdd = true then addRec sess r else sess) r2
                (by
                  intro p hp
                  rw [List.mem_filter] at hp
                  exact h p.fst (by simpa using hp.2))
              exact this

/-! ## Scalar-only merges: determinism and fixpoint -/

theorem lookup_eq_none_of_not_mem_keys {β : Type} (l : List (String × β)) (k : String)
    (h : k ∉ l.map Prod.fst) : l.lookup k = none := by
  induction l with
  | nil => rfl
  | cons hd tl ih =>
      obtain ⟨k0, v0⟩ := hd
      simp only [List.map_cons, List.mem_cons] at h
      push_neg at h
      simp only [List.lookup, beqf_of_ne h.1]
      exact ih h.2

theorem resolveSyn_eq_self (m : Model) (k : String)
    (h : (m.synonyms.map Prod.fst).contains k = false) : resolveSyn m k = k := by
  unfold resolveSyn
  rw [lookup_eq_none_of_not_mem_keys]
  intro hmem
  rw [containsStr_iff_mem.mpr hmem] at h
  exact Bool.true_eq_false.mp h

theorem ttsSet (m : Model) (r : Rec) (c : Column) (key : String) (v w : Val)
    (h : coerceOutcome c key v = CoerceR.set w) :
    tryToSetAttribute m r c key v = (setAttr m r key w, none) := by
  unfold tryToSetAttribute
  rw [h]

theorem ttsSkip (m : Model) (r : Rec) (c : Column) (key : String) (v : Val)
    (h : coerceOutcome c key v = CoerceR.skip) :
    tryToSetAttribute m r c key v = (r, none) := by
  unfold tryToSetAttribute
  rw [h]

theorem ttsFail (m : Model) (r : Rec) (c : Column) (key : String) (v : Val) (e : ApiError)
    (h : coerceOutcome c key v = CoerceR.fail e) :
    tryToSetAttribute m r c key v = (r, some e) := by
  unfold tryToSetAttribute
  rw [h]

/-- The value a column-coercion step writes depends only on the column and
the datum, so re-running the plain-column loop on its own successful result
changes nothing. -/
theorem colPass_fixpoint (m : Model) (d : Datum) :
    ∀ (cols : List Column) (r r1 : Rec),
      colPass m r cols d = (r1, none) →
      (cols.map Column.key).Nodup →
      (∀ c ∈ cols, resolveSyn m c.key = c.key) →
      colPass m r1 cols d = (r1, none) := by
  intro cols
  induction cols with
  | nil =>
      intro r r1 h _ _
      rfl
  | cons c rest ih =>
      intro r r1 h hnodup hsyn
      have hsynHead : resolveSyn m c.key = c.key := hsyn c (List.mem_cons_self c rest)
      have hsynRest : ∀ c2 ∈ rest, resolveSyn m c2.key = c2.key :=
        fun c2 hc2 => hsyn c2 (List.mem_cons_of_mem c hc2)
      simp only [List.map_cons, List.nodup_cons] at hnodup
      simp only [colPass] at h ⊢
      cases hco : coerceOutcome c c.key (datumGetD d c.key) with
      | fail e =>
          rw [ttsFail m r c c.key (datumGetD d c.key) e hco] at h
          simp at h
      | skip =>
          rw [ttsSkip m r c c.key (datumGetD d c.key) hco] at h
          rw [ttsSkip m r1 c c.key (datumGetD d c.key) hco]
          exact ih r r1 h hnodup.2 hsynRest
      | set w =>
          rw [ttsSet m r c c.key (datumGetD d c.key) w hco] at h
          rw [ttsSet m r1 c c.key (datumGetD d c.key) w hco]
          have hrest : colPass m (setAttr m r c.key w) rest d = (r1, none) := h
          have hlook : r1.fields.lookup c.key = some w := by
            have hfr := colPass_frame m d rest (setAttr m r c.key w) c.key
              (by
                intro c2 hc2
                rw [hsynRest c2 hc2]
                intro hcontra
                exact hnodup.1 (hcontra ▸ List.mem_map_of_mem Column.key hc2))
            rw [hrest] at hfr
            simp only at hfr
            rw [hfr]
            unfold setAttr
            rw [hsynHead]
            exact lookup_setPairs_self r.fields c.key w
          have hfix : setAttr m r1 c.key w = r1 := by
            unfold setAttr
            rw [hsynHead, setPairs_of_lookup_eq r1.fields c.key w hlook]
          rw [hfix]
          show colPass m r1 rest d = (r1, none)
          exact ih (setAttr m r c.key w) r1 hrest hnodup.2 hsynRest

theorem datumKeys_nil (d : Datum) : datumKeys d [] = d.map Prod.fst := by
  simp [datumKeys]

/-- On a datum whose keys are all plain columns (no relationship, synonym or
other keys), `modify` with default options reduces to the soft-delete check
followed by the plain-column loop. -/
theorem modify_scalar_eq (reg : Registry) (m : Model) (sess : Session) (r : Rec)
    (datum : Datum) (fuel : Nat)
    (hall : ∀ k ∈ datum.map Prod.fst,
        (m.columns.map Column.key).contains k = true
        ∧ (m.relationships.map Prod.fst).contains k = false
        ∧ (m.synonyms.map Prod.fst).contains k = false) :
    modifyF (fuel + 1) reg m sess r datum [] defaultOpts =
      if isSoftDeleted r then MOut.merr sess r ApiError.softDeletedErr
      else
        match colPass m r
            (m.columns.filter (fun c => (datumKeys datum []).contains c.key)) datum with
        | (r2, some e) => MOut.merr sess r2 e
        | (r2, none) =>
            match fuel with
            | 0 => MOut.mnofuel sess r2
            | _ + 1 => MOut.ret sess r2 true := by
  have hkeys : datumKeys datum [] = datum.map Prod.fst := datumKeys_nil datum
  have hrels : m.relationships.filter (fun p => (datumKeys datum []).contains p.fst) = [] := by
    rw [List.filter_eq_nil_iff]
    intro p hp hcontains
    have hmem : p.fst ∈ datum.map Prod.fst := by
      rw [← hkeys]
      exact containsStr_iff_mem.mp (by simpa using hcontains)
    have := (hall p.fst hmem).2.1
    rw [containsStr_iff_mem.mpr (List.mem_map_of_mem Prod.fst hp)] at this
    exact Bool.true_eq_false.mp this
  have hsyns : m.synonyms.filter (fun p => (datumKeys datum []).contains p.fst) = [] := by
    rw [List.filter_eq_nil_iff]
    intro p hp hcontains
    have hmem : p.fst ∈ datum.map Prod.fst := by
      rw [← hkeys]
      exact containsStr_iff_mem.mp (by simpa using hcontains)
    have := (hall p.fst hmem).2.2
    rw [containsStr_iff_mem.mpr (List.mem_map_of_mem Prod.fst hp)] at this
    exact Bool.true_eq_false.mp this
  have hothers : otherKeysOf m datum [] = [] := by
    unfold otherKeysOf
    rw [List.filter_eq_nil_iff]
    intro k hk hcond
    rw [hkeys] at hk
    have hcontains := (hall k hk).1
    simp only [Bool.and_eq_true, Bool.not_eq_true] at hcond
    rw [hcontains] at hcond
    simp at hcond
  simp only [modifyF, defaultOpts]
  by_cases hsd : isSoftDeleted r = true
  · rw [if_pos (by simpa using hsd), if_pos hsd]
    rfl
  · rw [if_neg (by simpa using hsd), if_neg hsd]
    rcases hcp : colPass m r
        (m.columns.filter (fun c => (datumKeys datum []).contains c.key)) datum with ⟨r2, e⟩
    cases e with
    | some err => rfl
    | none =>
        dsimp only
        rw [hrels, hsyns, hothers]
        cases fuel with
        | zero => rfl
        | succ fuel2 => simp [relPass, synPass, otherPass]

/-! ## Filter-builder characterizations -/

/-- Stated from the spec's words for comparison with `_unique_filter_from`:
the first unique column in declaration order that is present in the datum
with a truthy value. -/
def firstTruthyUnique (m : Model) (d : Datum) : Option Column :=
  (m.columns.filter Column.unique).find?
    (fun c => datumHasKey d c.key && valTruthy (datumGetD d c.key))

theorem uniqueFilterLoop_eq_find (d : Datum) :
    ∀ cols : List Column,
      uniqueFilterLoop d cols
        = (cols.find? (fun c => datumHasKey d c.key && valTruthy (datumGetD d c.key))).map
            (fun c => [(c.key, dehumanizeIfNeeded c (datumGetD d c.key))]) := by
  intro cols
  induction cols with
  | nil => rfl
  | cons c rest ih =>
      by_cases hk : datumHasKey d c.key = true
      · by_cases ht : valTruthy (datumGetD d c.key) = true
        · rw [List.find?_cons_of_pos _ (by simp [hk, ht])]
          simp [uniqueFilterLoop, hk, ht]
        · rw [List.find?_cons_of_neg _ (by simp [ht])]
          simp only [uniqueFilterLoop, hk, if_true]
          rw [if_neg ht]
          exact ih
      · rw [List.find?_cons_of_neg _ (by simp [hk])]
        simp only [uniqueFilterLoop]
        rw [if_neg hk]
        exact ih

theorem mem_keys_foldSet (t : String) :
    ∀ (l acc : List (String × Val)),
      (t ∈ (l.foldl (fun acc kv => setPairs acc kv.fst kv.snd) acc).map Prod.fst)
        ↔ t ∈ l.map Prod.fst ∨ t ∈ acc.map Prod.fst := by
  intro l
  induction l with
  | nil => simp
  | cons hd tl ih =>
      intro acc
      obtain ⟨k, v⟩ := hd
      simp only [List.foldl_cons, ih, mem_keys_setPairs, List.map_cons, List.mem_cons]
      tauto

theorem foldSet_eq_nil_iff :
    ∀ (l acc : List (String × Val)),
      (l.foldl (fun acc kv => setPairs acc kv.fst kv.snd) acc) = [] ↔ l = [] ∧ acc = [] := by
  intro l
  induction l with
  | nil => simp
  | cons hd tl ih =>
      intro acc
      obtain ⟨k, v⟩ := hd
      simp only [List.foldl_cons, ih]
      simp [setPairs_ne_nil]

/-! ## The claims -/

/-- C2: the resolution filter follows the strict strategy order of
`_filter_from`: with a non-empty `SEARCH_BY` sentinel the filter is built
exactly from the SEARCH_BY-named schema fields (never from primary-key or
unique inference); otherwise the first unique column in declaration order
present with a truthy value gives a single-entry filter; otherwise the
filter is built from every primary-key column. -/
theorem c2_filter_strategy_order (m : Model) (d : Datum) :
    ((hasTruthySearchBy d = true) →
      ∀ k, k ∈ (filterFrom m d).map Prod.fst ↔
        (searchKeysContain (searchByKeyVals (datumGetD d "__SEARCH_BY__")) k = true
          ∧ ((m.columns.map Column.key).contains k = true
              ∨ (m.relationships.map Prod.fst).contains k = true
              ∨ (m.synonyms.map Prod.fst).contains k = true)))
  ∧ ((hasTruthySearchBy d = false) →
      (∀ f, uniqueFilterFrom m d = some f → filterFrom m d = f)
        ∧ (uniqueFilterFrom m d = none → filterFrom m d = primaryFilterFrom m d))
  ∧ (uniqueFilterFrom m d
      = (firstTruthyUnique m d).map
          (fun c => [(c.key, dehumanizeIfNeeded c (datumGetD d c.key))])) := by
  refine ⟨?_, ?_, ?_⟩
  · intro hsb k
    unfold filterFrom
    rw [hsb]
    simp only [Bool.not_true, Bool.false_eq_true, if_false]
    rw [mem_keys_foldSet]
    simp only [List.map_nil, List.not_mem_nil, or_false, List.map_append, List.mem_append,
      List.map_map, List.mem_map, Function.comp]
    constructor
    · rintro ((⟨c, hc, rfl⟩ | ⟨p, hp, rfl⟩) | ⟨p, hp, rfl⟩)
      · rw [List.mem_filter] at hc
        exact ⟨hc.2, Or.inl (containsStr_iff_mem.mpr (List.mem_map_of_mem Column.key hc.1))⟩
      · rw [List.mem_filter] at hp
        exact ⟨hp.2, Or.inr (Or.inl (containsStr_iff_mem.mpr (List.mem_map_of_mem Prod.fst hp.1)))⟩
      · rw [List.mem_filter] at hp
        exact ⟨hp.2, Or.inr (Or.inr (containsStr_iff_mem.mpr (List.mem_map_of_mem Prod.fst hp.1)))⟩
    · rintro ⟨hname, (hcol | hrel | hsyn)⟩
      · obtain ⟨c, hc, rfl⟩ := List.mem_map.mp (containsStr_iff_mem.mp hcol)
        exact Or.inl (Or.inl ⟨c, List.mem_filter.mpr ⟨hc, hname⟩, rfl⟩)
      · obtain ⟨p, hp, rfl⟩ := List.mem_map.mp (containsStr_iff_mem.mp hrel)
        exact Or.inl (Or.inr ⟨p, List.mem_filter.mpr ⟨hp, hname⟩, rfl⟩)
      · obtain ⟨p, hp, rfl⟩ := List.mem_map.mp (containsStr_iff_mem.mp hsyn)
        exact Or.inr ⟨p, List.mem_filter.mpr ⟨hp, hname⟩, rfl⟩
  · intro hsb
    constructor
    · intro f hf
      unfold filterFrom
      rw [hsb]
      simp only [Bool.not_false, if_true, hf]
    · intro hf
      unfold filterFrom
      rw [hsb]
      simp only [Bool.not_false, if_true, hf]
  · exact uniqueFilterLoop_eq_find d (m.columns.filter Column.unique)

/-- C2 witness: with no `SEARCH_BY` and both a truthy unique column and a
primary-key value present, the filter is the unique column's single entry. -/
theorem c2_witness : filterFrom fbModel fbDatum = [("code", Val.vstr "u")] :=
  ((c2_filter_strategy_order fbModel fbDatum).2.1 rfl).1 [("code", Val.vstr "u")] rfl

/-- C3 counterexample: coercing the string `"12.5"` onto an integer column
does not raise a `DecimalCastError` — `Decimal("12.5")` parses, and the
decimal value 12.5 is assigned to the field. -/
theorem c3_counterexample :
    tryToSetAttribute scoreModel scoreRec scoreCol "score" (Val.vstr "12.5")
      = (⟨"Score", [("score", Val.vdec ⟨125, 1⟩)]⟩, none) := rfl

/-- C3 amended: coercing a string onto an integer (non-identifier) column
parses it with `Decimal(str)`; any string that parses — `"12"` as well as
`"12.5"` — is assigned as the parsed decimal value with no error, and only a
string that fails decimal parsing raises a `DecimalCastError` naming the
field and the attempted value with expected kind `integer`. -/
theorem c3_integer_string_coercion (m : Model) (r : Rec) (c : Column) (key s : String)
    (hint : isIntType c.ctype = true) (hid : isIdColumn c = false) :
    (∀ dv, parseDecimal s = some dv →
        tryToSetAttribute m r c key (Val.vstr s) = (setAttr m r key (decVToVal dv), none))
  ∧ (parseDecimal s = none →
        tryToSetAttribute m r c key (Val.vstr s) =
          (r, some (ApiError.decimalCast c.key
            ("Invalid value for " ++ key ++ " (" ++ "integer" ++ "): " ++ squo ++ s ++ squo)))) := by
  have hco : coerceOutcome c key (Val.vstr s) = decCoerce c key s "integer" := by
    unfold coerceOutcome dehumanizeIfNeeded
    rw [hid]
    simp only [Bool.false_eq_true, if_false, hint, if_true]
  constructor
  · intro dv hdv
    have : coerceOutcome c key (Val.vstr s) = CoerceR.set (decVToVal dv) := by
      rw [hco]
      unfold decCoerce
      rw [hdv]
    exact ttsSet m r c key (Val.vstr s) (decVToVal dv) this
  · intro hnone
    have : coerceOutcome c key (Val.vstr s) = CoerceR.fail (ApiError.decimalCast c.key
        ("Invalid value for " ++ key ++ " (" ++ "integer" ++ "): " ++ squo ++ s ++ squo)) := by
      rw [hco]
      unfold decCoerce
      rw [hnone]
    exact ttsFail m r c key (Val.vstr s) _ this

/-- C3 witness: `"12"` on the integer column succeeds, assigning the
numeric value 12, and `"abc"` raises the named `DecimalCastError`. -/
theorem c3_witness :
    tryToSetAttribute scoreModel scoreRec scoreCol "score" (Val.vstr "12")
        = (setAttr scoreModel scoreRec "score" (decVToVal (DecV.num ⟨12, 0⟩)), none)
  ∧ tryToSetAttribute scoreModel scoreRec scoreCol "score" (Val.vstr "abc")
        = (scoreRec, some (ApiError.decimalCast "score"
            ("Invalid value for " ++ "score" ++ " (" ++ "integer" ++ "): "
              ++ squo ++ "abc" ++ squo))) :=
  ⟨(c3_integer_string_coercion scoreModel scoreRec scoreCol "score" "12" rfl rfl).1
      (DecV.num ⟨12, 0⟩) rfl,
   (c3_integer_string_coercion scoreModel scoreRec scoreCol "score" "abc" rfl rfl).2 rfl⟩

def isCastError : ApiError → Bool
  | .dateTimeCast _ _ => true
  | .decimalCast _ _ => true
  | .uuidCast _ _ => true
  | _ => false

theorem decCoerce_fail_isCast (c : Column) (key s fmt : String) (e : ApiError)
    (h : decCoerce c key s fmt = CoerceR.fail e) : isCastError e = true := by
  unfold decCoerce at h
  revert h
  cases parseDecimal s <;> intro h
  · cases h
    rfl
  · simp at h

theorem dtCoerce_fail_isCast (c : Column) (key : String) (v : Val) (e : ApiError)
    (h : dtCoerce c key v = CoerceR.fail e) : isCastError e = true := by
  unfold dtCoerce at h
  revert h
  cases deserializeDatetime v <;> intro h
  · cases h
    rfl
  · simp at h

theorem uuidCoerce_fail_isCast (c : Column) (key s : String) (e : ApiError)
    (h : uuidCoerce c key s = CoerceR.fail e) : isCastError e = true := by
  unfold uuidCoerce at h
  split at h
  · simp at h
  · cases h
    rfl

theorem coerce_fail_isCast (c : Column) (key : String) (v : Val) (e : ApiError)
    (h : coerceOutcome c key v = CoerceR.fail e) : isCastError e = true := by
  simp only [coerceOutcome] at h
  split at h
  · split at h
    · exact decCoerce_fail_isCast _ _ _ _ _ h
    · split at h
      · exact decCoerce_fail_isCast _ _ _ _ _ h
      · split at h
        · simp at h
        · split at h
          · exact dtCoerce_fail_isCast _ _ _ _ h
          · split at h
            · exact uuidCoerce_fail_isCast _ _ _ _ h
            · simp at h
  · split at h
    · exact dtCoerce_fail_isCast _ _ _ _ h
    · simp at h

/-- C6 counterexample: a string value on a column kind outside the coercion
dispatch (here a non-numeric, non-string-typed column) is silently skipped:
nothing is assigned and no error is raised, so the claimed two-way
disjunction (assign or typed error) does not cover every column type and
raw value. -/
theorem c6_counterexample :
    tryToSetAttribute flagModel flagRec flagCol "flag" (Val.vstr "x") = (flagRec, none)
      ∧ getFieldD flagRec "flag" = Val.vbool true := ⟨rfl, rfl⟩

/-- C6 amended: scalar coercion is atomic per field with one extra silent
case — for every column and raw value, either the coerced value is assigned
(touching only that storage key), or the attempt is silently skipped leaving
the instance exactly as it was (a string on a column kind outside the
dispatch), or a typed cast error (DateTime/Decimal/Uuid) is raised and the
instance is returned exactly as it was before the attempt. -/
theorem c6_coercion_atomic (m : Model) (r : Rec) (c : Column) (key : String) (v : Val) :
    (∃ w, tryToSetAttribute m r c key v = (setAttr m r key w, none))
  ∨ tryToSetAttribute m r c key v = (r, none)
  ∨ (∃ e, tryToSetAttribute m r c key v = (r, some e) ∧ isCastError e = true) := by
  cases hco : coerceOutcome c key v with
  | set w => exact Or.inl ⟨w, ttsSet m r c key v w hco⟩
  | skip => exact Or.inr (Or.inl (ttsSkip m r c key v hco))
  | fail e =>
      exact Or.inr (Or.inr ⟨e, ttsFail m r c key v e hco, coerce_fail_isCast c key v e hco⟩)

/-- C4 counterexample: `find` with `SEARCH_BY ["missingField"]` where
`missingField` is a column of the model but has no value in the datum does
not raise an `EmptyFilterError` — the filter gets a `None`-valued entry and
the query is performed, returning nothing. -/
theorem c4_counterexample :
    find msModel ⟨[], []⟩ [("__SEARCH_BY__", Val.vlist [Val.vstr "missingField"])] true
      = Except.ok none := rfl

theorem searchContain_vstr_iff (names : List String) (k : String) :
    searchKeysContain (names.map Val.vstr) k = true ↔ k ∈ names := by
  unfold searchKeysContain
  induction names with
  | nil => simp
  | cons a rest ih =>
      simp only [List.map_cons, List.any_cons, Bool.or_eq_true, List.mem_cons, ih]
      constructor
      · rintro (hb | hm)
        · exact Or.inl (beq_iff_eq.mp (by simpa [pyEqStr] using hb)).symm
        · exact Or.inr hm
      · rintro (rfl | hm)
        · exact Or.inl (by simp [pyEqStr])
        · exact Or.inr hm

theorem vstrNames_extract (names : List String) :
    (names.map Val.vstr).map vstrOrEmpty = names := by
  induction names with
  | nil => rfl
  | cons a rest ih => simp [ih, vstrOrEmpty]

theorem vstrNames_all (names : List String) :
    (names.map Val.vstr).all isVstr = true := by
  induction names with
  | nil => rfl
  | cons a rest ih => simp [ih, isVstr]

theorem joinNames_vstr (names : List String) :
    joinNames (Val.vlist (names.map Val.vstr)) = some (String.intercalate ", " names) := by
  simp only [joinNames, vstrNames_all, if_true, vstrNames_extract]

/-- C4 amended: `find` raises the `EmptyFilterError` naming the declared
search keys exactly when none of the `SEARCH_BY` names is a schema field
(column, relationship or synonym) of the model; a named schema field merely
missing from the datum instead yields a `None`-valued filter entry and a
query. The raise happens before the query, with the session untouched. -/
theorem c4_empty_filter_on_unknown_names (m : Model) (sess : Session) (d : Datum)
    (names : List String) (wna : Bool)
    (hsb : d.lookup "__SEARCH_BY__" = some (Val.vlist (names.map Val.vstr)))
    (hne : names ≠ [])
    (hnone : ∀ k ∈ names, (m.columns.map Column.key).contains k = false
        ∧ (m.relationships.map Prod.fst).contains k = false
        ∧ (m.synonyms.map Prod.fst).contains k = false) :
    find m sess d wna = Except.error (ApiError.emptyFilter "_filter_from"
      ("None of filters found among: " ++ String.intercalate ", " names)) := by
  have hsbv : datumGetD d "__SEARCH_BY__" = Val.vlist (names.map Val.vstr) := by
    unfold datumGetD
    rw [hsb]
    rfl
  have htruthy : hasTruthySearchBy d = true := by
    unfold hasTruthySearchBy
    rw [hsb]
    cases hnames : names with
    | nil => exact absurd hnames hne
    | cons a rest => subst hnames; simp [valTruthy]
  have hkeys : searchByKeyVals (datumGetD d "__SEARCH_BY__") = names.map Val.vstr := by
    rw [hsbv]
    rfl
  have hempty : filterFrom m d = [] := by
    unfold filterFrom
    rw [htruthy]
    simp only [Bool.not_true, Bool.false_eq_true, if_false]
    rw [foldSet_eq_nil_iff]
    refine ⟨?_, rfl⟩
    have hnomatch : ∀ k, searchKeysContain
        (searchByKeyVals ((d.lookup "__SEARCH_BY__").getD Val.vnone)) k = true → k ∈ names := by
      intro k hk
      have : searchByKeyVals ((d.lookup "__SEARCH_BY__").getD Val.vnone) = names.map Val.vstr := by
        rw [hsb]
        rfl
      rw [this] at hk
      exact (searchContain_vstr_iff names k).mp hk
    have h1 : m.columns.filter
        (fun c => searchKeysContain
          (searchByKeyVals ((d.lookup "__SEARCH_BY__").getD Val.vnone)) c.key) = [] := by
      rw [List.filter_eq_nil_iff]
      intro c hc hcontain
      have hm := hnomatch c.key (by simpa using hcontain)
      have := (hnone c.key hm).1
      rw [containsStr_iff_mem.mpr (List.mem_map_of_mem Column.key hc)] at this
      exact Bool.true_eq_false.mp this
    have h2 : m.relationships.filter
        (fun p => searchKeysContain
          (searchByKeyVals ((d.lookup "__SEARCH_BY__").getD Val.vnone)) p.fst) = [] := by
      rw [List.filter_eq_nil_iff]
      intro p hp hcontain
      have hm := hnomatch p.fst (by simpa using hcontain)
      have := (hnone p.fst hm).2.1
      rw [containsStr_iff_mem.mpr (List.mem_map_of_mem Prod.fst hp)] at this
      exact Bool.true_eq_false.mp this
    have h3 : m.synonyms.filter
        (fun p => searchKeysContain
          (searchByKeyVals ((d.lookup "__SEARCH_BY__").getD Val.vnone)) p.fst) = [] := by
      rw [List.filter_eq_nil_iff]
      intro p hp hcontain
      have hm := hnomatch p.fst (by simpa using hcontain)
      have := (hnone p.fst hm).2.2
      rw [containsStr_iff_mem.mpr (List.mem_map_of_mem Prod.fst hp)] at this
      exact Bool.true_eq_false.mp this
    rw [h1, h2, h3]
    rfl
  unfold find
  rw [hempty]
  simp only [List.isEmpty_nil, if_true, hsb]
  rw [joinNames_vstr]

/-- C4 witness: against a model with no field named `missingField`, the
empty-filter error is raised naming it. -/
theorem c4_witness :
    find ms2Model ⟨[], []⟩ [("__SEARCH_BY__", Val.vlist [Val.vstr "missingField"])] true
      = Except.error (ApiError.emptyFilter "_filter_from"
          ("None of filters found among: " ++ String.intercalate ", " ["missingField"])) :=
  c4_empty_filter_on_unknown_names ms2Model ⟨[], []⟩
    [("__SEARCH_BY__", Val.vlist [Val.vstr "missingField"])] ["missingField"] true rfl
    (by simp)
    (by
      intro k hk
      rw [List.mem_singleton] at hk
      subst hk
      exact ⟨rfl, rfl, rfl⟩)

/-- C1: evaluation of the join-record scenario at the failing input. The
relationship-propagated resolution (`_instance_from_relationships`) does
resolve the already-existing join record (its `id` is 7), but
`instance_from` discards that result — modify.py:203 overwrites it with
`None` — and, with no primary-key or unique match available for a join
record, returns a freshly constructed duplicate instance carrying no `id`;
the top-level `create_or_modify` likewise returns an id-less duplicate. -/
theorem c1_dead_store_eval :
    (match instanceFromRelationshipsF 30 joinReg joinModel joinSess joinDatum none true with
     | ROut.rok _ (some r) => getFieldD r "id"
     | _ => Val.vnone) = Val.vint 7
  ∧ (match instanceFromF 30 joinReg joinModel joinSess (Val.vdict joinDatum) none true with
     | VOut.vok _ (Val.vinst _ fs) => fs.lookup "id"
     | _ => some Val.vnan) = none
  ∧ (match createOrModifyF 30 joinReg joinModel joinSess joinDatum false false true with
     | ROut.rok _ (some r) => getFieldD r "id"
     | _ => Val.vnan) = Val.vnone := ⟨rfl, rfl, rfl⟩

/-- C7 counterexample: with a datum whose only key names a read-only class
property, no cast or soft-delete error is raised, yet `modify` takes the
bare `return` of modify.py:85 and returns `None` rather than the instance
(the `false` flag on the `ret` outcome). -/
theorem c7_counterexample :
    modifyF 5 [] roModel ⟨[], []⟩ roRec [("computedThing", Val.vint 5)] [] defaultOpts
      = MOut.ret ⟨[], []⟩ roRec false := rfl

/-- C7 amended: when `modify` returns (rather than raising), it returns the
mutated instance itself unless some remaining key — outside the schema's
columns, relationships and aliases — names a read-only class property, in
which case the bare `return` of modify.py:85 yields `None` and the rest of
the remaining keys are abandoned. -/
theorem c7_modify_return_value (fuel : Nat) (reg : Registry) (m : Model) (sess : Session)
    (r : Rec) (datum : Datum) (skipped : List String) (opts : MOpts)
    (s : Session) (r2 : Rec) (b : Bool)
    (hret : modifyF (fuel + 1) reg m sess r datum skipped opts = MOut.ret s r2 b) :
    b = false ↔ ∃ k ∈ otherKeysOf m datum skipped, k ∈ m.readOnlyProps := by
  have hflag :
      ((otherKeysOf m datum skipped).any (fun k => m.readOnlyProps.contains k) = true)
        ↔ ∃ k ∈ otherKeysOf m datum skipped, k ∈ m.readOnlyProps := by
    rw [List.any_eq_true]
    constructor
    · rintro ⟨k, hk, hc⟩
      exact ⟨k, hk, containsStr_iff_mem.mp hc⟩
    · rintro ⟨k, hk, hc⟩
      exact ⟨k, hk, containsStr_iff_mem.mpr hc⟩
  simp only [modifyF] at hret
  split at hret
  · cases hret
  · rcases hcp : colPass m r
        (m.columns.filter (fun c => (datumKeys datum skipped).contains c.key)) datum
      with ⟨r3, e⟩
    rw [hcp] at hret
    cases e with
    | some err => cases hret
    | none =>
        dsimp only at hret
        cases hrp : relPass fuel reg m
            (if opts.withAdd = true then addRec sess r else sess) r3
            (m.relationships.filter (fun p => (datumKeys datum skipped).contains p.fst))
            datum opts.withNoAutoflush with
        | merr s3 r4 e3 => rw [hrp] at hret; cases hret
        | mnofuel s3 r4 => rw [hrp] at hret; cases hret
        | ret s3 r4 b3 =>
            rw [hrp] at hret
            dsimp only at hret
            rcases hsp : synPass m r4
                (m.synonyms.filter (fun p => (datumKeys datum skipped).contains p.fst)) datum
              with ⟨r5, e5⟩
            rw [hsp] at hret
            cases e5 with
            | some err => cases hret
            | none =>
                dsimp only at hret
                rcases hop : otherPass m r5 (otherKeysOf m datum skipped) datum with ⟨r6, b6⟩
                rw [hop] at hret
                have hb6 : b6 = (otherKeysOf m datum skipped).any
                    (fun k => m.readOnlyProps.contains k) := by
                  have := otherPass_flag m datum (otherKeysOf m datum skipped) r5
                  rwa [hop] at this
                cases b6 with
                | true =>
                    cases hret
                    simp only [true_iff]
                    exact hflag.mp hb6.symm
                | false =>
                    cases hret
                    simp only [Bool.true_eq_false, false_iff]
                    intro hex
                    have := hflag.mpr hex
                    rw [← hb6] at this
                    exact Bool.false_ne_true this

/-- C7 witness: the amended theorem applied at the counterexample scenario,
where the early-return condition does hold. -/
theorem c7_witness :
    (false = false ↔ ∃ k ∈ otherKeysOf roModel [("computedThing", Val.vint 5)] [],
        k ∈ roModel.readOnlyProps) :=
  c7_modify_return_value 4 [] roModel ⟨[], []⟩ roRec [("computedThing", Val.vint 5)] []
    defaultOpts ⟨[], []⟩ roRec false rfl

/-- C8 counterexample: `metier` is absent from the datum, yet `modify` with
the synonym-keyed datum `{job: "dev"}` changes the instance's `metier`
value — the synonym descriptor writes through to its proxied column, as the
repository's own synonym test exercises. -/
theorem c8_counterexample :
    (match modifyF 5 [] synModel ⟨[], []⟩ ⟨"User", []⟩ [("job", Val.vstr "dev")] []
        defaultOpts with
     | MOut.ret _ r _ => getFieldD r "metier"
     | _ => Val.vnan) = Val.vstr "dev"
  ∧ getFieldD ⟨"User", []⟩ "metier" = Val.vnone := ⟨rfl, rfl⟩

/-- C8 amended: `modify` is a merge — for every attribute name K whose
storage key (through synonym resolution) is not the storage key of any
datum key outside `skippedKeys`, the instance's K-value after the call
equals its K-value before, on every outcome; absence of a key never raises.
The exclusion for synonym-aliased storage is forced by the counterexample. -/
theorem c8_unspecified_fields_preserved (fuel : Nat) (reg : Registry) (m : Model)
    (sess : Session) (r : Rec) (datum : Datum) (skipped : List String) (opts : MOpts)
    (K : String)
    (h : ∀ k ∈ datumKeys datum skipped, resolveSyn m K ≠ resolveSyn m k) :
    getAttr m (mOutRec (modifyF fuel reg m sess r datum skipped opts)) K = getAttr m r K := by
  unfold getAttr getFieldD
  rw [modifyF_frame reg m datum skipped opts (resolveSyn m K) h fuel sess r]

/-- C8 witness: a field absent from the datum (`age`) is preserved across a
merge that sets the synonym key `job`. -/
theorem c8_witness :
    getAttr synModel (mOutRec (modifyF 5 [] synModel ⟨[], []⟩
        ⟨"User", [("age", Val.vint 3)]⟩ [("job", Val.vstr "dev")] [] defaultOpts)) "age"
      = getAttr synModel ⟨"User", [("age", Val.vint 3)]⟩ "age" :=
  c8_unspecified_fields_preserved 5 [] synModel ⟨[], []⟩ ⟨"User", [("age", Val.vint 3)]⟩
    [("job", Val.vstr "dev")] [] defaultOpts "age"
    (by
      intro k hk
      rw [show datumKeys [("job", Val.vstr "dev")] [] = ["job"] from rfl] at hk
      rw [List.mem_singleton] at hk
      subst hk
      decide)

/-- C9: for a datum of plain-column scalar fields only, a successful
`modify` is idempotent — a second application starting from the mutated
instance leaves every field exactly as the first application left it, on
every outcome of the second run and with any session and fuel. -/
theorem c9_scalar_modify_idempotent (reg : Registry) (m : Model) (sess : Session) (r : Rec)
    (datum : Datum) (f1 : Nat) (s1 : Session) (r1 : Rec) (b : Bool)
    (hall : ∀ k ∈ datum.map Prod.fst,
        (m.columns.map Column.key).contains k = true
        ∧ (m.relationships.map Prod.fst).contains k = false
        ∧ (m.synonyms.map Prod.fst).contains k = false)
    (hnodup : (m.columns.map Column.key).Nodup)
    (h1 : modifyF f1 reg m sess r datum [] defaultOpts = MOut.ret s1 r1 b) :
    ∀ (f2 : Nat) (sess2 : Session),
      mOutRec (modifyF f2 reg m sess2 r1 datum [] defaultOpts) = r1 := by
  cases f1 with
  | zero => simp [modifyF] at h1
  | succ f1 =>
      rw [modify_scalar_eq reg m sess r datum f1 hall] at h1
      by_cases hsd : isSoftDeleted r = true
      · rw [if_pos hsd] at h1
        cases h1
      · rw [if_neg hsd] at h1
        rcases hcp : colPass m r
            (m.columns.filter (fun c => (datumKeys datum []).contains c.key)) datum
          with ⟨r2, e⟩
        rw [hcp] at h1
        cases e with
        | some err => cases h1
        | none =>
            dsimp only at h1
            cases f1 with
            | zero => cases h1
            | succ f1b =>
                cases h1
                have hcols : ∀ c ∈ m.columns.filter
                    (fun c => (datumKeys datum []).contains c.key),
                    resolveSyn m c.key = c.key := by
                  intro c hc
                  rw [List.mem_filter] at hc
                  have hk : c.key ∈ datum.map Prod.fst := by
                    rw [← datumKeys_nil datum]
                    exact containsStr_iff_mem.mp (by simpa using hc.2)
                  exact resolveSyn_eq_self m c.key (hall c.key hk).2.2
                have hnodup2 : ((m.columns.filter
                    (fun c => (datumKeys datum []).contains c.key)).map Column.key).Nodup :=
                  hnodup.sublist ((List.filter_sublist _).map Column.key)
                have hfix := colPass_fixpoint m datum
                  (m.columns.filter (fun c => (datumKeys datum []).contains c.key))
                  r r1 hcp hnodup2 hcols
                intro f2 sess2
                cases f2 with
                | zero => rfl
                | succ f2 =>
                    rw [modify_scalar_eq reg m sess2 r1 datum f2 hall]
                    by_cases hsd2 : isSoftDeleted r1 = true
                    · rw [if_pos hsd2]
                      rfl
                    · rw [if_neg hsd2]
                      rw [hfix]
                      cases f2 with
                      | zero => rfl
                      | succ f2b => rfl

/-- C9 witness: a concrete scalar-only merge, applied twice. -/
theorem c9_witness :
    mOutRec (modifyF 7 [] thingModel ⟨[], []⟩ ⟨"Thing", [("name", Val.vstr "x")]⟩
        [("name", Val.vstr "x")] [] defaultOpts) = ⟨"Thing", [("name", Val.vstr "x")]⟩ :=
  c9_scalar_modify_idempotent [] thingModel ⟨[], []⟩ ⟨"Thing", []⟩
    [("name", Val.vstr "x")] 5 ⟨[], []⟩ ⟨"Thing", [("name", Val.vstr "x")]⟩ true
    (by
      intro k hk
      rw [show ([("name", Val.vstr "x")] : Datum).map Prod.fst = ["name"] from rfl] at hk
      rw [List.mem_singleton] at hk
      subst hk
      exact ⟨rfl, rfl, rfl⟩)
    (by decide)
    rfl 7 ⟨[], []⟩

/-- C10: every construction path funnels through the full merge pipeline —
`Modify.__init__` immediately runs `modify` on the blank instance, so the
not-found branch of `find_or_create` returns exactly the instance that
`modify` built from the (sentinel-resolved) datum on a blank record, and
raises exactly the typed cast error that same `modify` call raises. -/
theorem c10_construction_runs_modify (fuel : Nat) (reg : Registry) (m : Model)
    (sess : Session) (datum : Datum) (wna : Bool)
    (hfind : find m sess datum wna = Except.ok none) :
    (∀ s self b, modifyF fuel reg m (createdFrom m sess datum).1 (blankRec m)
          (createdFrom m sess datum).2 [] defaultOpts = MOut.ret s self b →
        findOrCreateF (fuel + 1 + 1) reg m sess datum wna = ROut.rok s (some self))
  ∧ (∀ s r2 e, modifyF fuel reg m (createdFrom m sess datum).1 (blankRec m)
          (createdFrom m sess datum).2 [] defaultOpts = MOut.merr s r2 e →
        findOrCreateF (fuel + 1 + 1) reg m sess datum wna = ROut.rerr s e) := by
  rcases hc : createdFrom m sess datum with ⟨sc, dc⟩
  constructor
  · intro s self b hmod
    dsimp only at hmod
    have hmk : mkInstanceF (fuel + 1) reg m sc dc = IOut.iok s self := by
      simp only [mkInstanceF, hmod]
    simp only [findOrCreateF, hfind, hc, hmk]
  · intro s r2 e hmod
    dsimp only at hmod
    have hmk : mkInstanceF (fuel + 1) reg m sc dc = IOut.ierr s e := by
      simp only [mkInstanceF, hmod]
    simp only [findOrCreateF, hfind, hc, hmk]

/-- C10 witness: constructing through `find_or_create` raises the same
`DecimalCastError` that `modify` of a blank instance raises on the datum
whose `id` is not a number. -/
theorem c10_witness :
    findOrCreateF (3 + 1 + 1) [] thingModel ⟨[], []⟩ [("id", Val.vstr "abc")] true
      = ROut.rerr ⟨[], []⟩ (ApiError.decimalCast "id"
          ("Invalid value for " ++ "id" ++ " (" ++ "integer" ++ "): "
            ++ squo ++ "abc" ++ squo)) :=
  (c10_construction_runs_modify 3 [] thingModel ⟨[], []⟩ [("id", Val.vstr "abc")] true
      rfl).2 ⟨[], []⟩ ⟨"Thing", []⟩
    (ApiError.decimalCast "id"
      ("Invalid value for " ++ "id" ++ " (" ++ "integer" ++ "): " ++ squo ++ "abc" ++ squo))
    rfl

/-! ## Identifier encode/decode roundtrip -/

theorem natOfDigits_append (l : List Char) (c : Char) :
    natOfDigits (l ++ [c]) = natOfDigits l * 10 + (c.toNat - 48) := by
  unfold natOfDigits
  rw [List.foldl_append]
  rfl

theorem natDigitsAux_spec :
    ∀ (f n : Nat), n < f →
      (natDigitsAux f n).all isDigitCh = true ∧ natOfDigits (natDigitsAux f n) = n := by
  intro f
  induction f with
  | zero => intro n h; omega
  | succ f ih =>
      intro n h
      cases n with
      | zero => exact ⟨rfl, rfl⟩
      | succ n0 =>
          have hdiv : (n0 + 1) / 10 < f := by
            have h1 : (n0 + 1) / 10 < n0 + 1 := Nat.div_lt_self (Nat.succ_pos n0) (by norm_num)
            omega
          obtain ⟨ihall, ihval⟩ := ih ((n0 + 1) / 10) hdiv
          have hmod : (n0 + 1) % 10 < 10 := Nat.mod_lt _ (by norm_num)
          have hdigit : isDigitCh (Char.ofNat (48 + (n0 + 1) % 10)) = true := by
            set r := (n0 + 1) % 10 with hr
            interval_cases r <;> decide
          have htoNat : (Char.ofNat (48 + (n0 + 1) % 10)).toNat - 48 = (n0 + 1) % 10 := by
            set r := (n0 + 1) % 10 with hr
            interval_cases r <;> decide
          have heq : natDigitsAux (f + 1) (n0 + 1)
              = natDigitsAux f ((n0 + 1) / 10) ++ [Char.ofNat (48 + (n0 + 1) % 10)] := rfl
          constructor
          · rw [heq, List.all_append]
            simp [ihall, hdigit]
          · rw [heq, natOfDigits_append, ihval, htoNat]
            omega

theorem dehumanizeStr_humanize (n : Nat) :
    dehumanizeStr (humanize (Int.ofNat n)) = some (Int.ofNat n) := by
  cases n with
  | zero => rfl
  | succ n0 =>
      obtain ⟨hall, hval⟩ := natDigitsAux_spec (n0 + 2) (n0 + 1) (by omega)
      have hna : natToStr (n0 + 1) = String.mk (natDigitsAux (n0 + 2) (n0 + 1)) := by
        unfold natToStr
        rfl
      have hhum : humanize (Int.ofNat (n0 + 1)) = "~" ++ String.mk (natDigitsAux (n0 + 2) (n0 + 1)) := by
        unfold humanize intToStr
        dsimp only
        rw [hna]
      have htl : ("~" ++ String.mk (natDigitsAux (n0 + 2) (n0 + 1))).toList
          = '~' :: natDigitsAux (n0 + 2) (n0 + 1) := rfl
      have hne : (natDigitsAux (n0 + 2) (n0 + 1)).isEmpty = false := by
        cases hl : natDigitsAux (n0 + 2) (n0 + 1) with
        | nil =>
            rw [hl] at hval
            simp [natOfDigits] at hval
        | cons a l => rfl
      unfold dehumanizeStr
      rw [hhum, htl]
      simp only [hne, hall, Bool.not_false, Bool.and_true, beq_self_eq_true, Bool.true_and,
        if_true]
      rw [hval]

theorem createdFrom_thing (sess : Session) (s : String) :
    createdFrom thingModel sess
        [("id", Val.vstr "__NEXT_ID_IF_NOT_EXISTS__"), ("name", Val.vstr s)]
      = (⟨sess.store, bumpSeqs sess.seqs "thing_id_seq"⟩,
         [("id", Val.vstr (humanize (Int.ofNat (seqVal sess "thing_id_seq")))),
          ("name", Val.vstr s)]) := by
  simp [createdFrom, datumHasKey, pyEqStr, datumGetD, execSeq, setPairs, thingModel, List.lookup]

theorem mkInstance_thing (fuel : Nat) (sess' : Session) (hstr s : String) (n : Nat)
    (hdh : dehumanizeStr hstr = some (Int.ofNat n)) :
    mkInstanceF (fuel + 1 + 1 + 1) [] thingModel sess'
        [("id", Val.vstr hstr), ("name", Val.vstr s)]
      = IOut.iok sess' ⟨"Thing",
          [("id", Val.vint (Int.ofNat n)), ("name", Val.vstr (pyStrip s))]⟩ := by
  simp [mkInstanceF, modifyF, relPass, synPass, otherPass, colPass, otherKeysOf, datumKeys,
    tryToSetAttribute, coerceOutcome, dehumanizeIfNeeded, hdh, setAttr, resolveSyn, setPairs,
    blankRec, isSoftDeleted, getFieldD, valTruthy, datumGetD, isIdColumn, pyStrip, defaultOpts,
    thingModel, isIntType, isFloatType, isDtVal, List.lookup]

/-- C5: the `NEXT_ID_IF_NOT_EXISTS` sentinel. Creation path: with no
existing match, `create_or_modify` builds exactly one new record whose `id`
is the next value of the type's identifier sequence (allocated and decoded
through the humanize/dehumanize roundtrip), the sequence is advanced, the
store is untouched, and the sentinel token is never left as a field value.
Update path: with a match found, the `id` key is stripped before merging,
so the existing identifier is untouched on every outcome of the merge. -/
theorem c5_deferred_identifier (fuel : Nat) (sess : Session) (s : String)
    (hfind : find thingModel sess
        [("id", Val.vstr "__NEXT_ID_IF_NOT_EXISTS__"), ("name", Val.vstr s)] true
      = Except.ok none) :
    (createOrModifyF (fuel + 1 + 1 + 1 + 1) [] thingModel sess
        [("id", Val.vstr "__NEXT_ID_IF_NOT_EXISTS__"), ("name", Val.vstr s)] false false true
      = ROut.rok ⟨sess.store, bumpSeqs sess.seqs "thing_id_seq"⟩
          (some ⟨"Thing",
            [("id", Val.vint (Int.ofNat (seqVal sess "thing_id_seq"))),
             ("name", Val.vstr (pyStrip s))]⟩)
      ∧ (pyStrip s ≠ "__NEXT_ID_IF_NOT_EXISTS__" →
          ∀ k, getFieldD (⟨"Thing",
              [("id", Val.vint (Int.ofNat (seqVal sess "thing_id_seq"))),
               ("name", Val.vstr (pyStrip s))]⟩ : Rec) k
            ≠ Val.vstr "__NEXT_ID_IF_NOT_EXISTS__"))
  ∧ (∀ (m : Model) (reg : Registry) (sess2 : Session) (entity : Rec) (datum : Datum)
        (wa wf wna2 : Bool) (f2 : Nat),
      m.synonyms = [] →
      (datum.map Prod.fst).Nodup →
      datumHasKey datum "id" = true →
      pyEqStr (datumGetD datum "id") "__NEXT_ID_IF_NOT_EXISTS__" = true →
      getFieldD (mOutRec (modifyF f2 reg m sess2 entity (existingFrom datum) []
          ⟨wa, true, wf, wna2⟩)) "id" = getFieldD entity "id") := by
  refine ⟨⟨?_, ?_⟩, ?_⟩
  · simp only [createOrModifyF, nestingDatumFrom]
    rw [hfind]
    dsimp only
    rw [createdFrom_thing sess s]
    dsimp only
    rw [mkInstance_thing fuel ⟨sess.store, bumpSeqs sess.seqs "thing_id_seq"⟩
      (humanize (Int.ofNat (seqVal sess "thing_id_seq"))) s (seqVal sess "thing_id_seq")
      (dehumanizeStr_humanize (seqVal sess "thing_id_seq"))]
    rfl
  · intro hs k
    unfold getFieldD
    by_cases hk1 : k = "id"
    · subst hk1
      intro hcontra
      simp [List.lookup] at hcontra
    · by_cases hk2 : k = "name"
      · subst hk2
        intro hcontra
        simp only [List.lookup, beqf_of_ne (by simp : ("name" : String) ≠ "id"),
          beq_self_eq_true, Option.getD_some] at hcontra
        exact hs (Val.vstr.inj hcontra)
      · intro hcontra
        simp only [List.lookup, beqf_of_ne hk1, beqf_of_ne hk2, Option.getD_none] at hcontra
        cases hcontra
  · intro m reg sess2 entity datum wa wf wna2 f2 hsyn hnodup hhas hsent
    have hex : existingFrom datum = delKey datum "id" := by
      unfold existingFrom
      rw [hhas, hsent]
      rfl
    rw [hex]
    unfold getFieldD
    rw [modifyF_frame reg m (delKey datum "id") [] ⟨wa, true, wf, wna2⟩ "id"
      (by
        intro k hk
        rw [datumKeys_nil] at hk
        have hne : k ≠ "id" := fun hkid => keys_delKey datum "id" hnodup (hkid ▸ hk)
        have hr : resolveSyn m k = k := by simp [resolveSyn, hsyn]
        rw [hr]
        exact fun hcontra => hne hcontra.symm)
      f2 sess2 entity]

/-- C5 witness: a concrete creation on an empty store (the allocated
identifier is the sequence's first value, 1) and a concrete update leaving
the existing identifier 9 untouched. -/
theorem c5_witness :
    (createOrModifyF 4 [] thingModel ⟨[], []⟩
        [("id", Val.vstr "__NEXT_ID_IF_NOT_EXISTS__"), ("name", Val.vstr "x")] false false true
      = ROut.rok ⟨([] : List Rec), bumpSeqs [] "thing_id_seq"⟩
          (some ⟨"Thing",
            [("id", Val.vint (Int.ofNat (seqVal ⟨[], []⟩ "thing_id_seq"))),
             ("name", Val.vstr (pyStrip "x"))]⟩))
  ∧ getFieldD (mOutRec (modifyF 3 [] thingModel ⟨[], []⟩ ⟨"Thing", [("id", Val.vint 9)]⟩
        (existingFrom [("id", Val.vstr "__NEXT_ID_IF_NOT_EXISTS__")]) []
        ⟨false, true, false, true⟩)) "id"
      = getFieldD (⟨"Thing", [("id", Val.vint 9)]⟩ : Rec) "id" :=
  ⟨(c5_deferred_identifier 0 ⟨[], []⟩ "x" rfl).1.1,
   (c5_deferred_identifier 0 ⟨[], []⟩ "x" rfl).2 thingModel [] ⟨[], []⟩
     ⟨"Thing", [("id", Val.vint 9)]⟩ [("id", Val.vstr "__NEXT_ID_IF_NOT_EXISTS__")]
     false false true 3 rfl (by decide) rfl rfl⟩
